import Mathlib

/-!
Verification of the student-payment balance protocol.

This file gives a shallow embedding of the ledger tables
(payments, payment_class_allocations, payment_deductions, student_attendance,
class_occurrences, occurrence_exclusions, student_class_enrollments from
src/database/schema.sql) and of the operations that mutate them:

* `deductPaymentBalance` — the helper shared by the occurrence routes and by
  the first automated scheduler (src/unnamed/part_000 lines 488-540,
  src/backend/src/services/automatedScheduler.ts lines 153-209);
* `deductPaymentBalanceSched` — the second scheduler variant embedded after the
  schema (src/database/schema.sql part two, lines 481-585), which marks
  occurrences overdue;
* `refundPaymentBalance` and `reversePaymentDeduction` (part_000);
* the attendance routes, the exclusion routes, the attendance-with-payment
  route (part_000);
* `createPayment` (POST /, part_001) with its overdue-recovery scan,
  `allocatePayment` (POST /:id/allocate) and `deletePayment` (DELETE /:id)
  together with the schema's ON DELETE actions;
* `materializeOccurrence` — the per-schedule body of
  `checkAndCreateOccurrences` in automatedScheduler.ts.

Counters are embedded as `Int` (SQL INTEGER), ids and dates as `Nat`
(a larger `paymentDate`/`occDate` is a later timestamp).
-/

/-- Row of the `payments` table. -/
structure Payment where
  pid : Nat
  studentId : Nat
  classesPurchased : Int
  classesRemaining : Int
  paymentDate : Nat
deriving Repr, DecidableEq

/-- Row of `payment_class_allocations`. -/
structure Allocation where
  paymentId : Nat
  classId : Nat
  classesAllocated : Int
deriving Repr, DecidableEq

/-- Row of `payment_deductions`; `paymentId` is nullable
(`payment_id ON DELETE SET NULL`). -/
structure Deduction where
  studentId : Nat
  classId : Nat
  occurrenceId : Nat
  paymentId : Option Nat
  classesDeducted : Int
  isOverdueDeduction : Bool
deriving Repr, DecidableEq

/-- Attendance status enum of `student_attendance.attendance_status`. -/
inductive AttStatus where
  | present
  | absent
  | late
  | excused
deriving Repr, DecidableEq

/-- Row of `student_attendance`. -/
structure AttendanceRow where
  studentId : Nat
  occurrenceId : Nat
  status : AttStatus
deriving Repr, DecidableEq

/-- Row of `class_occurrences`. -/
structure Occurrence where
  oid : Nat
  classId : Nat
  scheduleId : Option Nat
  occDate : Nat
  startTime : Nat
  isOverdue : Bool
deriving Repr, DecidableEq

/-- Row of `occurrence_exclusions`. -/
structure Exclusion where
  occurrenceId : Nat
  studentId : Nat
  reason : String
deriving Repr, DecidableEq

/-- Row of `student_class_enrollments`. -/
structure Enrollment where
  studentId : Nat
  classId : Nat
  isActive : Bool
deriving Repr, DecidableEq

/-- Row of `class_schedules`. -/
structure Schedule where
  sid : Nat
  classId : Nat
  dayOfWeek : Nat
  startTime : Nat
  isActive : Bool
deriving Repr, DecidableEq

/-- The durable store: the ledger and occurrence tables of schema.sql. -/
structure DB where
  payments : List Payment
  allocations : List Allocation
  deductions : List Deduction
  attendance : List AttendanceRow
  occurrences : List Occurrence
  exclusions : List Exclusion
  enrollments : List Enrollment
deriving Repr, DecidableEq

/-! ## Generic helpers over the tables -/

/-- Sum of `classes_deducted` over the deductions a given payment funded for a
given student and class (the `used` subquery of the payment-selection SQL). -/
def classesUsedFrom (db : DB) (s c pid : Nat) : Int :=
  ((db.deductions.filter (fun d =>
    d.studentId == s && d.classId == c && d.paymentId == some pid)).map
      (fun d => d.classesDeducted)).sum

/-- UPDATE payments SET classes_remaining = classes_remaining - k WHERE id = pid. -/
def decRemaining (ps : List Payment) (pid : Nat) (k : Int) : List Payment :=
  ps.map (fun p =>
    if p.pid == pid then { p with classesRemaining := p.classesRemaining - k } else p)

/-- UPDATE payments SET classes_remaining = classes_remaining + k WHERE id = pid. -/
def incRemaining (ps : List Payment) (pid : Nat) (k : Int) : List Payment :=
  ps.map (fun p =>
    if p.pid == pid then { p with classesRemaining := p.classesRemaining + k } else p)

/-- UPDATE class_occurrences SET is_overdue = b WHERE id = o. -/
def setOccOverdue (db : DB) (o : Nat) (b : Bool) : DB :=
  { db with occurrences := db.occurrences.map (fun oc =>
      if oc.oid == o then { oc with isOverdue := b } else oc) }

/-- DELETE of a single row found by id: removes the first list element
satisfying the predicate. -/
def removeFirst (p : α → Bool) : List α → List α
  | [] => []
  | x :: xs => if p x then xs else x :: removeFirst p xs

/-- Number of deduction rows for a (student, occurrence) pair. -/
def countDed (db : DB) (s o : Nat) : Nat :=
  db.deductions.countP (fun d => d.studentId == s && d.occurrenceId == o)

/-- Number of attendance rows for a (student, occurrence) pair. -/
def countAtt (db : DB) (s o : Nat) : Nat :=
  db.attendance.countP (fun a => a.studentId == s && a.occurrenceId == o)

/-! ## Payment selection (the eligible-payment SQL query)

The query joins `payments` with `payment_class_allocations`, keeps rows with
`classes_remaining > 0` and remaining allocation capacity, and takes the row
with the most recent `payment_date` (ORDER BY payment_date DESC LIMIT 1). -/

/-- One row of the payment-selection join: the payment, its allocation for the
class, and the computed `available_classes`. -/
structure PayRow where
  pay : Payment
  allocated : Int
  available : Int
deriving Repr, DecidableEq

/-- The joined and filtered candidate rows of the payment-selection query. -/
def payRowCandidates (db : DB) (s c : Nat) : List PayRow :=
  (db.payments.filter (fun p => p.studentId == s && decide (0 < p.classesRemaining))).flatMap
    (fun p =>
      (db.allocations.filter (fun a =>
        a.paymentId == p.pid && a.classId == c &&
          decide (0 < a.classesAllocated - classesUsedFrom db s c p.pid))).map
        (fun a => ⟨p, a.classesAllocated,
          a.classesAllocated - classesUsedFrom db s c p.pid⟩))

/-- ORDER BY payment_date DESC LIMIT 1: the row with the largest payment date
(first such row on ties). -/
def pickLatest : List PayRow → Option PayRow
  | [] => none
  | r :: rs =>
    match pickLatest rs with
    | none => some r
    | some q => if q.pay.paymentDate > r.pay.paymentDate then some q else some r

/-- The eligible payment chosen by the deduction helpers. -/
def selectPayRow (db : DB) (s c : Nat) : Option PayRow :=
  pickLatest (payRowCandidates db s c)

/-! ## The balance engine -/

/-- Outcome of the route/scheduler-1 `deductPaymentBalance` helper. -/
inductive DeductResult where
  | alreadyExists
  | deducted (paymentId : Nat)
  | noPayment
deriving Repr, DecidableEq

/-- Balance-engine deduct, as implemented by `deductPaymentBalance` in
src/unnamed/part_000 (lines 488-540) and identically in
src/backend/src/services/automatedScheduler.ts (lines 153-209):
skip if a deduction for (student, occurrence) already exists; otherwise insert
a deduction of 1 linked to the selected payment and decrement that payment's
`classes_remaining`; if no payment qualifies, do nothing at all. -/
def deductPaymentBalance (db : DB) (s c o : Nat) : DB × DeductResult :=
  if db.deductions.any (fun d => d.studentId == s && d.occurrenceId == o) then
    (db, .alreadyExists)
  else
    match selectPayRow db s c with
    | none => (db, .noPayment)
    | some r =>
      ({ db with
          deductions := db.deductions ++ [⟨s, c, o, some r.pay.pid, 1, false⟩],
          payments := decRemaining db.payments r.pay.pid 1 },
       .deducted r.pay.pid)

/-- Outcome of the second scheduler variant's deduction helper. -/
inductive SchedDeductResult where
  | alreadyExists
  | noPaymentOverdue
  | noClassesRemainingOverdue
  | noAllocatedOverdue
  | deducted (paymentId : Nat)
deriving Repr, DecidableEq

/-- The second scheduler variant of `deductPaymentBalance`
(src/database/schema.sql part two, lines 481-585). It marks the occurrence
overdue when no payment qualifies, re-checks the chosen row
(`availableClasses` there is computed as
`classes_allocated - (available_classes || 0)`), and clears `is_overdue`
after a successful deduction. -/
def deductPaymentBalanceSched (db : DB) (s c o : Nat) : DB × SchedDeductResult :=
  if db.deductions.any (fun d => d.studentId == s && d.occurrenceId == o) then
    (db, .alreadyExists)
  else
    match selectPayRow db s c with
    | none => (setOccOverdue db o true, .noPaymentOverdue)
    | some r =>
      if r.pay.classesRemaining ≤ 0 then
        (setOccOverdue db o true, .noClassesRemainingOverdue)
      else
        let availableClasses :=
          r.allocated - (if r.available == 0 then 0 else r.available)
        if availableClasses ≤ 0 then
          (setOccOverdue db o true, .noAllocatedOverdue)
        else
          let db1 :=
            { db with
                deductions := db.deductions ++ [⟨s, c, o, some r.pay.pid, 1, false⟩],
                payments := decRemaining db.payments r.pay.pid 1 }
          (setOccOverdue db1 o false, .deducted r.pay.pid)

/-- Balance-engine refund, as implemented by `refundPaymentBalance` in
src/unnamed/part_000 (lines 543-573): find the deduction for
(student, class, occurrence); if present, add its `classes_deducted` back to
the linked payment and delete that row; otherwise do nothing. -/
def refundPaymentBalance (db : DB) (s c o : Nat) : DB :=
  match db.deductions.find? (fun d =>
    d.studentId == s && d.classId == c && d.occurrenceId == o) with
  | none => db
  | some d =>
    { db with
        payments :=
          match d.paymentId with
          | some pid => incRemaining db.payments pid d.classesDeducted
          | none => db.payments,
        deductions := removeFirst (fun e =>
          e.studentId == s && e.classId == c && e.occurrenceId == o)
          db.deductions }

/-- Balance-engine reversal, as implemented by `reversePaymentDeduction` in
src/unnamed/part_000 (lines 1251-1273): find the deduction for
(student, occurrence); if present, restore the linked payment and delete every
row for the pair; otherwise do nothing. -/
def reversePaymentDeduction (db : DB) (s o : Nat) : DB :=
  match db.deductions.find? (fun d => d.studentId == s && d.occurrenceId == o) with
  | none => db
  | some d =>
    { db with
        payments :=
          match d.paymentId with
          | some pid => incRemaining db.payments pid d.classesDeducted
          | none => db.payments,
        deductions := db.deductions.filter (fun e =>
          !(e.studentId == s && e.occurrenceId == o)) }

/-! ## Attendance routes -/

/-- INSERT ... ON CONFLICT (student_id, class_occurrence_id) DO UPDATE. -/
def upsertAttendance (db : DB) (s o : Nat) (st : AttStatus) : DB :=
  if db.attendance.any (fun a => a.studentId == s && a.occurrenceId == o) then
    { db with attendance := db.attendance.map (fun a =>
        if a.studentId == s && a.occurrenceId == o then { a with status := st } else a) }
  else
    { db with attendance := db.attendance ++ [⟨s, o, st⟩] }

/-- POST /occurrences/:occurrenceId/attendance (src/unnamed/part_000
lines 856-929): verify the occurrence exists and the student is actively
enrolled, then upsert the attendance row. Validation failures roll back. -/
def recordAttendance (db : DB) (s o : Nat) (st : AttStatus) : DB :=
  match db.occurrences.find? (fun oc => oc.oid == o) with
  | none => db
  | some oc =>
    if db.enrollments.any (fun e =>
        e.studentId == s && e.classId == oc.classId && e.isActive) then
      upsertAttendance db s o st
    else db

/-- PUT /occurrences/:occurrenceId/attendance/:studentId (src/unnamed/part_000
lines 931-970): UPDATE of the existing attendance row only. -/
def updateAttendance (db : DB) (o s : Nat) (st : AttStatus) : DB :=
  { db with attendance := db.attendance.map (fun a =>
      if a.occurrenceId == o && a.studentId == s then { a with status := st } else a) }

/-- POST /occurrences/:occurrenceId/bulk-attendance (src/unnamed/part_000
lines 972-1058): after an occurrence check, upsert each record in turn. -/
def bulkAttendance (db : DB) (o : Nat) (recs : List (Nat × AttStatus)) : DB :=
  if recs.isEmpty then db
  else
    match db.occurrences.find? (fun oc => oc.oid == o) with
    | none => db
    | some _ => recs.foldl (fun acc r => upsertAttendance acc r.1 o r.2) db

/-- PUT /occurrences/:occurrenceId/attendance-with-payment
(src/unnamed/part_000 lines 1173-1248): read the previous status, upsert the
row, and when `update_payment_balance` is set reverse a deduction on a
present-to-not-present change or deduct on a not-present-to-present change.
A missing occurrence in the deduct branch makes the route throw, rolling the
whole transaction back. -/
def wasPresent (db : DB) (s o : Nat) : Bool :=
  (db.attendance.find? (fun a => a.studentId == s && a.occurrenceId == o)).any
    (fun a => a.status == .present)

def attendanceWithPayment (db : DB) (s o : Nat) (st : AttStatus)
    (updateBalance : Bool) : DB :=
  let isPresent := st == .present
  let db1 := upsertAttendance db s o st
  if updateBalance then
    if wasPresent db s o && !isPresent then
      reversePaymentDeduction db1 s o
    else if !(wasPresent db s o) && isPresent then
      match db.occurrences.find? (fun oc => oc.oid == o) with
      | some oc => (deductPaymentBalance db1 s oc.classId o).1
      | none => db
    else db1
  else db1

/-! ## Exclusion routes -/

/-- POST /occurrences/:occurrenceId/exclusions (src/unnamed/part_000
lines 1061-1117): verify the occurrence, upsert the exclusion, delete the
attendance row for the pair, and reverse any payment deduction. -/
def addExclusion (db : DB) (o s : Nat) (reason : String) : DB :=
  match db.occurrences.find? (fun oc => oc.oid == o) with
  | none => db
  | some _ =>
    let db1 : DB :=
      if db.exclusions.any (fun e => e.occurrenceId == o && e.studentId == s) then
        { db with exclusions := db.exclusions.map (fun (e : Exclusion) =>
            if e.occurrenceId == o && e.studentId == s then { e with reason := reason }
            else e) }
      else
        { db with exclusions := db.exclusions ++ [⟨o, s, reason⟩] }
    let db2 : DB := { db1 with attendance := db1.attendance.filter (fun a =>
        !(a.studentId == s && a.occurrenceId == o)) }
    reversePaymentDeduction db2 s o

/-- DELETE /occurrences/:occurrenceId/exclusions/:studentId
(src/unnamed/part_000 lines 1120-1170): delete the exclusion (404 rolls back),
insert a present attendance row (a unique-constraint conflict rolls back),
look up the occurrence's class and deduct. -/
def removeExclusion (db : DB) (o s : Nat) : DB :=
  if db.exclusions.any (fun e => e.occurrenceId == o && e.studentId == s) then
    let db1 : DB := { db with exclusions := db.exclusions.filter (fun e =>
        !(e.occurrenceId == o && e.studentId == s)) }
    if db1.attendance.any (fun a => a.studentId == s && a.occurrenceId == o) then db
    else
      let db2 : DB := { db1 with attendance := db1.attendance ++ [⟨s, o, .present⟩] }
      match db2.occurrences.find? (fun oc => oc.oid == o) with
      | some oc => (deductPaymentBalance db2 s oc.classId o).1
      | none => db
  else db

/-! ## Payment routes -/

/-- Requested allocation of a payment to a class; the route reads the
`allocated_classes` field of each element. -/
structure AllocReq where
  classId : Nat
  allocatedClasses : Int
deriving Repr, DecidableEq

/-- Relation used to order overdue occurrences: ORDER BY occurrence_date ASC. -/
def occDateLE (a b : Occurrence) : Prop := a.occDate ≤ b.occDate

instance : DecidableRel occDateLE := fun a b => Nat.decLe a.occDate b.occDate

instance : IsTotal Occurrence occDateLE := ⟨fun a b => Nat.le_total a.occDate b.occDate⟩

instance : IsTrans Occurrence occDateLE := ⟨fun _ _ _ => Nat.le_trans⟩

/-- The overdue query of POST / (create payment): occurrences of the class
marked overdue whose attendance for the student is present, oldest first. -/
def overdueOccs (db : DB) (s c : Nat) : List Occurrence :=
  (db.occurrences.filter (fun oc =>
    oc.classId == c && oc.isOverdue &&
      db.attendance.any (fun a =>
        a.studentId == s && a.occurrenceId == oc.oid &&
          a.status == AttStatus.present))).insertionSort occDateLE

/-- The per-occurrence overdue-deduction loop of POST /: for each scanned
occurrence without an existing deduction, insert an overdue deduction of 1
linked to the new payment and clear the occurrence's `is_overdue`. -/
def processOverdue (pid s c : Nat) (db : DB) (occs : List Occurrence) : DB :=
  occs.foldl (fun acc oc =>
    if acc.deductions.any (fun d => d.studentId == s && d.occurrenceId == oc.oid) then
      acc
    else
      setOccOverdue
        { acc with deductions := acc.deductions ++ [⟨s, c, oc.oid, some pid, 1, true⟩] }
        oc.oid false)
    db

/-- POST / (create payment, src/unnamed/part_001 lines 564-683): validate
enrollment for every requested allocation, insert the payment with
`classes_remaining = classes_purchased`, then for each allocation query the
overdue occurrences (LIMIT allocated_classes), insert the allocation row and
run the overdue-deduction loop. The route never decrements
`classes_remaining` for overdue deductions. -/
def createPayment (db : DB) (pid s : Nat) (purchased : Int) (pdate : Nat)
    (reqs : List AllocReq) : DB :=
  if reqs.all (fun r => db.enrollments.any (fun e =>
      e.studentId == s && e.classId == r.classId && e.isActive)) then
    let db1 := { db with payments := db.payments ++ [⟨pid, s, purchased, purchased, pdate⟩] }
    reqs.foldl (fun acc r =>
      let ods := (overdueOccs acc s r.classId).take r.allocatedClasses.toNat
      let acc1 := { acc with allocations :=
        acc.allocations ++ [⟨pid, r.classId, r.allocatedClasses⟩] }
      processOverdue pid s r.classId acc1 ods) db1
  else db

/-- POST /:id/allocate (src/unnamed/part_001 lines 786-860): reject when the
total requested exceeds `classes_remaining`; otherwise replace the payment's
allocation rows and set
`classes_remaining := classes_remaining - total allocated`. -/
def allocatePayment (db : DB) (pid : Nat) (reqs : List AllocReq) : DB :=
  if reqs.isEmpty then db
  else
    match db.payments.find? (fun p => p.pid == pid) with
    | none => db
    | some p =>
      let total := (reqs.map (fun r => r.allocatedClasses)).sum
      if p.classesRemaining < total then db
      else
        { db with
            allocations :=
              db.allocations.filter (fun a => !(a.paymentId == pid)) ++
                reqs.map (fun r => ⟨pid, r.classId, r.allocatedClasses⟩),
            payments := db.payments.map (fun q =>
              if q.pid == pid then { q with classesRemaining := p.classesRemaining - total }
              else q) }

/-- DELETE /:id (src/unnamed/part_001 lines 747-783) plus the schema's
referential actions: the payment row is deleted, its allocation rows cascade,
and deductions that drew from it keep their row with `payment_id` set NULL. -/
def deletePayment (db : DB) (pid : Nat) : DB :=
  if db.payments.any (fun p => p.pid == pid) then
    { db with
        payments := db.payments.filter (fun p => !(p.pid == pid)),
        allocations := db.allocations.filter (fun a => !(a.paymentId == pid)),
        deductions := db.deductions.map (fun d =>
          if d.paymentId == some pid then { d with paymentId := none } else d) }
  else db

/-! ## The occurrence materializer -/

/-- Outcome of materializing one schedule for one date. `uniqueViolation` is
the path where the INSERT hits `UNIQUE(class_id, occurrence_date, start_time)`
and the per-schedule catch records it as an error. -/
inductive MatResult where
  | alreadyExists
  | created (oid : Nat)
  | uniqueViolation
deriving Repr, DecidableEq

/-- The per-schedule body of `checkAndCreateOccurrences`
(src/backend/src/services/automatedScheduler.ts lines 52-138): the existence
pre-check is on the four-part key (class, schedule_id, date, start_time)
(lines 55-68) and skips when it matches. When the pre-check misses but an
occurrence with the same (class, date, start_time) triple exists — for
example a manual occurrence with a NULL `schedule_id` — the INSERT raises
the schema's `UNIQUE(class_id, occurrence_date, start_time)` violation,
which the per-schedule catch (lines 136-138) records as an error, leaving
the store unchanged. Otherwise the occurrence is inserted and, for every
active enrollment, a present attendance row is inserted and the payment
balance deducted. `newOid` is the id the insert returns. -/
def materializeOccurrence (db : DB) (sch : Schedule) (today newOid : Nat) :
    DB × MatResult :=
  if db.occurrences.any (fun oc =>
      oc.classId == sch.classId && oc.scheduleId == some sch.sid &&
        oc.occDate == today && oc.startTime == sch.startTime) then
    (db, .alreadyExists)
  else if db.occurrences.any (fun oc =>
      oc.classId == sch.classId && oc.occDate == today &&
        oc.startTime == sch.startTime) then
    (db, .uniqueViolation)
  else
    let db1 : DB := { db with occurrences :=
      db.occurrences ++ [⟨newOid, sch.classId, some sch.sid, today, sch.startTime, false⟩] }
    let studs : List Nat := (db1.enrollments.filter (fun e =>
      e.classId == sch.classId && e.isActive)).map (fun e => e.studentId)
    let db2 : DB := studs.foldl (fun acc st =>
      (deductPaymentBalance
        { acc with attendance := acc.attendance ++ [⟨st, newOid, .present⟩] }
        st sch.classId newOid).1) db1
    (db2, .created newOid)

/-- The per-schedule body of POST /auto-create-occurrences
(src/unnamed/part_000 lines 1385-1456): its existence check is on the
(class, date, start_time) triple itself — the same key as the schema's
unique constraint — and an existing row is skipped as the idempotent no-op
(`continue`, line 1400). Otherwise it inserts the occurrence with the
schedule's id and, for every active enrollment, inserts a present attendance
row and deducts the payment balance. -/
def autoCreateOccurrence (db : DB) (sch : Schedule) (today newOid : Nat) :
    DB × MatResult :=
  if db.occurrences.any (fun oc =>
      oc.classId == sch.classId && oc.occDate == today &&
        oc.startTime == sch.startTime) then
    (db, .alreadyExists)
  else
    let db1 : DB := { db with occurrences :=
      db.occurrences ++ [⟨newOid, sch.classId, some sch.sid, today, sch.startTime, false⟩] }
    let studs : List Nat := (db1.enrollments.filter (fun e =>
      e.classId == sch.classId && e.isActive)).map (fun e => e.studentId)
    let db2 : DB := studs.foldl (fun acc st =>
      (deductPaymentBalance
        { acc with attendance := acc.attendance ++ [⟨st, newOid, .present⟩] }
        st sch.classId newOid).1) db1
    (db2, .created newOid)

/-! ## Sample stores used by the concrete witnesses -/

/-- A small consistent store: one payment of 5 classes with 4 remaining, one
allocation of 3 to class 1, one deduction linked to the payment, one
occurrence with a present attendance row, one active enrollment. -/
def sampleDB : DB :=
  ⟨[⟨1, 1, 5, 4, 10⟩],
   [⟨1, 1, 3⟩],
   [⟨1, 1, 7, some 1, 1, false⟩],
   [⟨1, 7, .present⟩],
   [⟨7, 1, none, 3, 60, false⟩],
   [],
   [⟨1, 1, true⟩]⟩

/-- A schedule for class 1 used when materializing from `sampleDB`. -/
def sampleSchedule : Schedule := ⟨2, 1, 1, 60, true⟩

/-- Number of occurrence rows matching the materializer's existence key. -/
def countOcc (db : DB) (sch : Schedule) (today : Nat) : Nat :=
  db.occurrences.countP (fun oc =>
    oc.classId == sch.classId && oc.scheduleId == some sch.sid &&
      oc.occDate == today && oc.startTime == sch.startTime)

/-- Number of occurrence rows carrying a (class, date, start_time) triple —
the key of the schema's `UNIQUE(class_id, occurrence_date, start_time)`
constraint. -/
def countTriple (db : DB) (c date st : Nat) : Nat :=
  db.occurrences.countP (fun oc =>
    oc.classId == c && oc.occDate == date && oc.startTime == st)

/-- Total of `classes_remaining` across the payments table. -/
def sumRemaining (ps : List Payment) : Int :=
  (ps.map (fun p => p.classesRemaining)).sum

/-! ## The ledger invariant (conservation)

The spec's conservation property: for any payment, `classes_remaining` equals
`classes_purchased` minus the sum of `classes_deducted` over the deduction
rows currently linked to it (refunds delete their row), and is never
negative. We bundle it with the schema facts it needs to be preserved:
`classes_deducted > 0` (CHECK), at most one deduction per
(student, occurrence) (UNIQUE) and distinct payment ids (PRIMARY KEY). -/

/-- Sum of `classes_deducted` over the rows linked to payment `pid`. -/
def linkedD (ds : List Deduction) (pid : Nat) : Int :=
  ((ds.filter (fun d => d.paymentId == some pid)).map (fun d => d.classesDeducted)).sum

/-- Conservation: every payment's counter matches its linked deductions. -/
def conserves (db : DB) : Prop :=
  ∀ p ∈ db.payments, p.classesRemaining = p.classesPurchased - linkedD db.deductions p.pid

/-- No payment's counter is negative. -/
def nonnegRemaining (db : DB) : Prop :=
  ∀ p ∈ db.payments, 0 ≤ p.classesRemaining

/-- Schema CHECK (classes_deducted > 0). -/
def dedPositive (db : DB) : Prop :=
  ∀ d ∈ db.deductions, 0 < d.classesDeducted

/-- Schema UNIQUE (student_id, occurrence_id) on payment_deductions. -/
def dedUniquePairs (db : DB) : Prop :=
  ∀ d ∈ db.deductions,
    db.deductions.countP (fun e =>
      e.studentId == d.studentId && e.occurrenceId == d.occurrenceId) = 1

/-- Schema PRIMARY KEY on payments. -/
def pidNodup (db : DB) : Prop :=
  (db.payments.map (fun p => p.pid)).Nodup

/-- The full ledger invariant of the reachable states. -/
def ledgerInvariant (db : DB) : Prop :=
  conserves db ∧ nonnegRemaining db ∧ dedPositive db ∧ dedUniquePairs db ∧ pidNodup db

instance (db : DB) : Decidable (ledgerInvariant db) := by
  unfold ledgerInvariant conserves nonnegRemaining dedPositive dedUniquePairs pidNodup
  infer_instance

/-! ## Basic list lemmas -/

theorem linkedD_append (ds : List Deduction) (d : Deduction) (pid : Nat) :
    linkedD (ds ++ [d]) pid =
      linkedD ds pid + (if d.paymentId == some pid then d.classesDeducted else 0) := by
  by_cases h : d.paymentId == some pid <;>
    simp [linkedD, List.filter_append, h]

theorem linkedD_cons (x : Deduction) (ds : List Deduction) (pid : Nat) :
    linkedD (x :: ds) pid =
      (if x.paymentId == some pid then x.classesDeducted else 0) + linkedD ds pid := by
  by_cases h : x.paymentId == some pid <;>
    simp [linkedD, List.filter_cons, h]

theorem removeFirst_of_find? (p : Deduction → Bool) (ds : List Deduction)
    (d : Deduction) (h : ds.find? p = some d) (pid : Nat) :
    linkedD (removeFirst p ds) pid =
      linkedD ds pid - (if d.paymentId == some pid then d.classesDeducted else 0) := by
  induction ds with
  | nil => simp at h
  | cons x xs ih =>
    by_cases hx : p x
    · rw [List.find?_cons_of_pos _ hx] at h
      injection h with h
      subst h
      simp only [removeFirst, hx, if_true]
      rw [linkedD_cons]
      ring
    · rw [List.find?_cons_of_neg _ (by simpa using hx)] at h
      simp only [removeFirst, hx, Bool.false_eq_true, if_false]
      rw [linkedD_cons, linkedD_cons, ih h]
      ring

theorem filter_not_eq_removeFirst (p : Deduction → Bool) (ds : List Deduction)
    (h : ds.countP p ≤ 1) :
    ds.filter (fun x => !p x) = removeFirst p ds := by
  induction ds with
  | nil => rfl
  | cons x xs ih =>
    by_cases hx : p x
    · have hc : xs.countP p = 0 := by
        have := h
        rw [List.countP_cons, if_pos hx] at this
        omega
      have hall : ∀ y ∈ xs, ¬ p y := List.countP_eq_zero.mp hc
      simp only [List.filter_cons, hx, removeFirst, Bool.not_true, if_true]
      simp only [Bool.false_eq_true, if_false]
      exact List.filter_eq_self.mpr (by
        intro y hy
        simp [hall y hy])
    · have h' : xs.countP p ≤ 1 := by
        rw [List.countP_cons, if_neg hx] at h
        omega
      simp only [List.filter_cons, removeFirst, hx]
      simp [ih h']

theorem decRemaining_map_pid (ps : List Payment) (q : Nat) (k : Int) :
    (decRemaining ps q k).map (fun p => p.pid) = ps.map (fun p => p.pid) := by
  unfold decRemaining
  rw [List.map_map]
  apply List.map_congr_left
  intro p _
  by_cases h : p.pid = q <;> simp [h]

theorem incRemaining_map_pid (ps : List Payment) (q : Nat) (k : Int) :
    (incRemaining ps q k).map (fun p => p.pid) = ps.map (fun p => p.pid) := by
  unfold incRemaining
  rw [List.map_map]
  apply List.map_congr_left
  intro p _
  by_cases h : p.pid = q <;> simp [h]

theorem removeFirst_sublist (p : α → Bool) (l : List α) :
    List.Sublist (removeFirst p l) l := by
  induction l with
  | nil => exact List.Sublist.refl _
  | cons x xs ih =>
    by_cases hx : p x
    · simp only [removeFirst, hx, if_true]
      exact List.sublist_cons_self x xs
    · simp only [removeFirst, hx, Bool.false_eq_true, if_false]
      exact List.Sublist.cons₂ x ih

theorem pickLatest_mem (l : List PayRow) (r : PayRow) (h : pickLatest l = some r) :
    r ∈ l := by
  induction l with
  | nil => simp [pickLatest] at h
  | cons x xs ih =>
    simp only [pickLatest] at h
    cases hxs : pickLatest xs with
    | none =>
      rw [hxs] at h
      dsimp only at h
      injection h with h
      subst h
      exact List.mem_cons_self _ _
    | some q =>
      rw [hxs] at h
      dsimp only at h
      by_cases hd : q.pay.paymentDate > x.pay.paymentDate
      · rw [if_pos hd] at h
        injection h with h
        subst h
        exact List.mem_cons_of_mem _ (ih hxs)
      · rw [if_neg hd] at h
        injection h with h
        subst h
        exact List.mem_cons_self _ _

theorem pickLatest_isSome (l : List PayRow) (h : l ≠ []) :
    (pickLatest l).isSome := by
  cases l with
  | nil => exact absurd rfl h
  | cons x xs =>
    simp only [pickLatest]
    cases pickLatest xs with
    | none => rfl
    | some q => by_cases hd : q.pay.paymentDate > x.pay.paymentDate <;> simp [hd]

theorem selectPayRow_spec (db : DB) (s c : Nat) (r : PayRow)
    (h : selectPayRow db s c = some r) :
    r.pay ∈ db.payments ∧ r.pay.studentId = s ∧ 0 < r.pay.classesRemaining := by
  have hmem := pickLatest_mem _ _ h
  unfold payRowCandidates at hmem
  rw [List.mem_flatMap] at hmem
  obtain ⟨p, hp, hr⟩ := hmem
  rw [List.mem_map] at hr
  obtain ⟨a, _, hr⟩ := hr
  rw [List.mem_filter] at hp
  obtain ⟨hpmem, hpcond⟩ := hp
  have hpay : r.pay = p := by rw [← hr]
  simp only [Bool.and_eq_true, beq_iff_eq, decide_eq_true_eq] at hpcond
  exact ⟨hpay ▸ hpmem, hpay ▸ hpcond.1, hpay ▸ hpcond.2⟩

/-! ## Preservation of the ledger invariant -/

theorem ledgerInvariant_core (db : DB) {db' : DB}
    (hp : db'.payments = db.payments) (hd : db'.deductions = db.deductions)
    (h : ledgerInvariant db) : ledgerInvariant db' := by
  unfold ledgerInvariant conserves nonnegRemaining dedPositive dedUniquePairs pidNodup at h ⊢
  rw [hp, hd]
  exact h

theorem ledgerInvariant_deduct (db : DB) (s c o : Nat) (h : ledgerInvariant db) :
    ledgerInvariant (deductPaymentBalance db s c o).1 := by
  unfold deductPaymentBalance
  by_cases hex : db.deductions.any (fun d => d.studentId == s && d.occurrenceId == o)
  · simpa [hex] using h
  · simp only [hex, Bool.false_eq_true, if_false]
    cases hsel : selectPayRow db s c with
    | none => simpa using h
    | some r =>
      obtain ⟨hcon, hnn, hpos, huni, hnd⟩ := h
      obtain ⟨hmem, _, hrem⟩ := selectPayRow_spec db s c r hsel
      have hnodup : ∀ p ∈ db.payments, p.pid = r.pay.pid → p = r.pay := by
        intro p hp hpid
        exact List.inj_on_of_nodup_map hnd hp hmem hpid
      have hnew : ∀ e ∈ db.deductions, ¬(e.studentId == s && e.occurrenceId == o) := by
        simpa only [List.any_eq_false] using (Bool.not_eq_true _).mp hex
      refine ⟨?_, ?_, ?_, ?_, ?_⟩
      · intro p' hp'
        simp only [decRemaining, List.mem_map] at hp'
        obtain ⟨p, hp, hup⟩ := hp'
        have hclinked := hcon p hp
        rw [linkedD_append]
        by_cases hpid : p.pid = r.pay.pid
        · rw [if_pos (by simp [hpid])] at hup
          subst hup
          dsimp only
          rw [if_pos (by simp [hpid])]
          omega
        · rw [if_neg (by simp [hpid])] at hup
          subst hup
          rw [if_neg (by simp only [beq_iff_eq, Option.some.injEq]; exact fun hcontra => hpid hcontra.symm)]
          omega
      · intro p' hp'
        simp only [decRemaining, List.mem_map] at hp'
        obtain ⟨p, hp, hup⟩ := hp'
        by_cases hpid : p.pid = r.pay.pid
        · have heq : p = r.pay := hnodup p hp hpid
          rw [if_pos (by simp [hpid])] at hup
          subst hup
          dsimp only
          rw [heq]
          omega
        · rw [if_neg (by simp [hpid])] at hup
          subst hup
          exact hnn p hp
      · intro d hd
        rw [List.mem_append] at hd
        cases hd with
        | inl hd => exact hpos d hd
        | inr hd =>
          simp only [List.mem_singleton] at hd
          subst hd
          exact Int.one_pos
      · intro d hd
        rw [List.countP_append]
        rw [List.mem_append] at hd
        cases hd with
        | inl hd =>
          have h1 := huni d hd
          have h2 : List.countP (fun e =>
              e.studentId == d.studentId && e.occurrenceId == d.occurrenceId)
              [(⟨s, c, o, some r.pay.pid, 1, false⟩ : Deduction)] = 0 := by
            simp only [List.countP_singleton]
            by_cases hmatch : s = d.studentId ∧ o = d.occurrenceId
            · exact absurd (by simp [hmatch.1, hmatch.2]) (hnew d hd)
            · simp only [Bool.and_eq_true, beq_iff_eq]
              rw [if_neg (by tauto)]
          omega
        | inr hd =>
          simp only [List.mem_singleton] at hd
          subst hd
          have h0 : List.countP (fun e => e.studentId == s && e.occurrenceId == o)
              db.deductions = 0 := by
            rw [List.countP_eq_zero]
            exact hnew
          simp only [List.countP_singleton, beq_self_eq_true, Bool.and_self, if_true]
          omega
      · unfold pidNodup at hnd ⊢
        simp only [decRemaining_map_pid]
        exact hnd

theorem countP_removeFirst_le (p q : Deduction → Bool) (l : List Deduction) :
    (removeFirst p l).countP q ≤ l.countP q :=
  (removeFirst_sublist p l).countP_le q

theorem ledgerInvariant_removeInc (db : DB) (pred : Deduction → Bool) (d : Deduction)
    (hfind : db.deductions.find? pred = some d) (h : ledgerInvariant db) :
    ledgerInvariant { db with
      payments :=
        match d.paymentId with
        | some pid => incRemaining db.payments pid d.classesDeducted
        | none => db.payments,
      deductions := removeFirst pred db.deductions } := by
  obtain ⟨hcon, hnn, hpos, huni, hnd⟩ := h
  have hdmem : d ∈ db.deductions := List.mem_of_find?_eq_some hfind
  have hdpos : 0 < d.classesDeducted := hpos d hdmem
  have hlinked := removeFirst_of_find? pred db.deductions d hfind
  refine ⟨?_, ?_, ?_, ?_, ?_⟩
  · intro p' hp'
    cases hpid : d.paymentId with
    | none =>
      simp only [hpid] at hp'
      have hcl := hcon p' hp'
      rw [hlinked p'.pid, hpid]
      rw [if_neg (by simp)]
      omega
    | some pid =>
      simp only [hpid, incRemaining, List.mem_map] at hp'
      obtain ⟨p, hp, hup⟩ := hp'
      have hcl := hcon p hp
      by_cases hpp : p.pid = pid
      · rw [if_pos (by simp [hpp])] at hup
        subst hup
        dsimp only
        rw [hlinked p.pid, hpid]
        rw [if_pos (by simp [hpp])]
        omega
      · rw [if_neg (by simp [hpp])] at hup
        subst hup
        rw [hlinked p.pid, hpid]
        rw [if_neg (by simp only [beq_iff_eq, Option.some.injEq]; exact fun hc => hpp hc.symm)]
        omega
  · intro p' hp'
    cases hpid : d.paymentId with
    | none =>
      simp only [hpid] at hp'
      exact hnn p' hp'
    | some pid =>
      simp only [hpid, incRemaining, List.mem_map] at hp'
      obtain ⟨p, hp, hup⟩ := hp'
      have hn := hnn p hp
      by_cases hpp : p.pid = pid
      · rw [if_pos (by simp [hpp])] at hup
        subst hup
        dsimp only
        omega
      · rw [if_neg (by simp [hpp])] at hup
        subst hup
        exact hn
  · intro e he
    exact hpos e ((removeFirst_sublist pred db.deductions).subset he)
  · intro e he
    dsimp only at he ⊢
    have hmem : e ∈ db.deductions := (removeFirst_sublist pred db.deductions).subset he
    have h1 := huni e hmem
    have hle := countP_removeFirst_le pred
      (fun x => x.studentId == e.studentId && x.occurrenceId == e.occurrenceId) db.deductions
    have hpos' : 0 < (removeFirst pred db.deductions).countP
        (fun x => x.studentId == e.studentId && x.occurrenceId == e.occurrenceId) := by
      rw [List.countP_pos_iff]
      exact ⟨e, he, by simp⟩
    omega
  · unfold pidNodup
    cases hpid : d.paymentId with
    | none => exact hnd
    | some pid =>
      simp only [incRemaining_map_pid]
      exact hnd

theorem ledgerInvariant_refund (db : DB) (s c o : Nat) (h : ledgerInvariant db) :
    ledgerInvariant (refundPaymentBalance db s c o) := by
  unfold refundPaymentBalance
  cases hfind : db.deductions.find? (fun d =>
      d.studentId == s && d.classId == c && d.occurrenceId == o) with
  | none => exact h
  | some d => exact ledgerInvariant_removeInc db _ d hfind h

theorem ledgerInvariant_reverse (db : DB) (s o : Nat) (h : ledgerInvariant db) :
    ledgerInvariant (reversePaymentDeduction db s o) := by
  unfold reversePaymentDeduction
  cases hfind : db.deductions.find? (fun d =>
      d.studentId == s && d.occurrenceId == o) with
  | none => exact h
  | some d =>
    have hdmem : d ∈ db.deductions := List.mem_of_find?_eq_some hfind
    have hdp := List.find?_some hfind
    have hcount : db.deductions.countP (fun e =>
        e.studentId == s && e.occurrenceId == o) ≤ 1 := by
      obtain ⟨_, _, _, huni, _⟩ := h
      have h1 := huni d hdmem
      have heq : db.deductions.countP (fun e =>
          e.studentId == s && e.occurrenceId == o) =
          db.deductions.countP (fun e =>
          e.studentId == d.studentId && e.occurrenceId == d.occurrenceId) := by
        apply List.countP_congr
        intro x _
        simp only [Bool.and_eq_true, beq_iff_eq] at hdp ⊢
        rw [hdp.1, hdp.2]
      omega
    have hfe : db.deductions.filter (fun e =>
        !(e.studentId == s && e.occurrenceId == o)) =
        removeFirst (fun e => e.studentId == s && e.occurrenceId == o) db.deductions :=
      filter_not_eq_removeFirst _ _ hcount
    rw [hfe]
    exact ledgerInvariant_removeInc db _ d hfind h

/-! ## Frame lemmas: attendance writes never touch the ledger -/

theorem upsertAttendance_frame (db : DB) (s o : Nat) (st : AttStatus) :
    (upsertAttendance db s o st).payments = db.payments ∧
    (upsertAttendance db s o st).allocations = db.allocations ∧
    (upsertAttendance db s o st).deductions = db.deductions ∧
    (upsertAttendance db s o st).occurrences = db.occurrences ∧
    (upsertAttendance db s o st).exclusions = db.exclusions ∧
    (upsertAttendance db s o st).enrollments = db.enrollments := by
  unfold upsertAttendance
  by_cases h : db.attendance.any (fun a => a.studentId == s && a.occurrenceId == o) <;>
    simp [h]

theorem deduct_frame (db : DB) (s c o : Nat) :
    (deductPaymentBalance db s c o).1.allocations = db.allocations ∧
    (deductPaymentBalance db s c o).1.attendance = db.attendance ∧
    (deductPaymentBalance db s c o).1.occurrences = db.occurrences ∧
    (deductPaymentBalance db s c o).1.exclusions = db.exclusions ∧
    (deductPaymentBalance db s c o).1.enrollments = db.enrollments := by
  unfold deductPaymentBalance
  by_cases hex : db.deductions.any (fun d => d.studentId == s && d.occurrenceId == o)
  · simp [hex]
  · simp only [hex, Bool.false_eq_true, if_false]
    cases hsel : selectPayRow db s c <;> simp

theorem ledgerInvariant_upsertAttendance (db : DB) (s o : Nat) (st : AttStatus)
    (h : ledgerInvariant db) : ledgerInvariant (upsertAttendance db s o st) := by
  obtain ⟨hp, _, hd, _⟩ := upsertAttendance_frame db s o st
  exact ledgerInvariant_core db hp hd h

theorem ledgerInvariant_addExclusion (db : DB) (o s : Nat) (reason : String)
    (h : ledgerInvariant db) : ledgerInvariant (addExclusion db o s reason) := by
  unfold addExclusion
  cases hocc : db.occurrences.find? (fun oc => oc.oid == o) with
  | none => exact h
  | some oc =>
    apply ledgerInvariant_reverse
    by_cases hex : db.exclusions.any (fun e => e.occurrenceId == o && e.studentId == s) <;>
      · apply ledgerInvariant_core db _ _ h <;> simp [hex]

theorem ledgerInvariant_removeExclusion (db : DB) (o s : Nat)
    (h : ledgerInvariant db) : ledgerInvariant (removeExclusion db o s) := by
  unfold removeExclusion
  by_cases hex : db.exclusions.any (fun e => e.occurrenceId == o && e.studentId == s)
  · simp only [hex, if_true]
    by_cases hatt : (db.exclusions.filter (fun e =>
        !(e.occurrenceId == o && e.studentId == s))) = db.exclusions
    all_goals
      by_cases hatt2 : ({ db with exclusions := db.exclusions.filter (fun e =>
          !(e.occurrenceId == o && e.studentId == s)) } : DB).attendance.any
          (fun a => a.studentId == s && a.occurrenceId == o)
    all_goals simp only [hatt2, if_true, Bool.false_eq_true, if_false]
    all_goals try exact h
    all_goals
      cases hocc : ({ db with
          exclusions := db.exclusions.filter (fun e =>
            !(e.occurrenceId == o && e.studentId == s)),
          attendance := db.attendance ++ [⟨s, o, .present⟩] } : DB).occurrences.find?
            (fun oc => oc.oid == o) with
      | none => exact h
      | some oc =>
        apply ledgerInvariant_deduct
        exact ledgerInvariant_core db rfl rfl h
  · simp only [hex, Bool.false_eq_true, if_false]
    exact h

theorem ledgerInvariant_attendanceWithPayment (db : DB) (s o : Nat) (st : AttStatus)
    (updateBalance : Bool) (h : ledgerInvariant db) :
    ledgerInvariant (attendanceWithPayment db s o st updateBalance) := by
  unfold attendanceWithPayment
  have hup : ledgerInvariant (upsertAttendance db s o st) :=
    ledgerInvariant_upsertAttendance db s o st h
  by_cases hb : updateBalance
  · simp only [hb, if_true]
    by_cases h1 : wasPresent db s o && !(st == AttStatus.present)
    · simp only [h1, if_true]
      exact ledgerInvariant_reverse _ s o hup
    · simp only [h1, Bool.false_eq_true, if_false]
      by_cases h2 : !(wasPresent db s o) && (st == AttStatus.present)
      · simp only [h2, if_true]
        cases hocc : db.occurrences.find? (fun oc => oc.oid == o) with
        | none => exact h
        | some oc => exact ledgerInvariant_deduct _ s oc.classId o hup
      · simp only [h2, Bool.false_eq_true, if_false]
        exact hup
  · simp only [hb, Bool.false_eq_true, if_false]
    exact hup

theorem ledgerInvariant_foldStudents (c o : Nat) (studs : List Nat) (db : DB)
    (h : ledgerInvariant db) :
    ledgerInvariant (studs.foldl (fun acc st =>
      (deductPaymentBalance
        { acc with attendance := acc.attendance ++ [⟨st, o, .present⟩] }
        st c o).1) db) := by
  induction studs generalizing db with
  | nil => exact h
  | cons st sts ih =>
    simp only [List.foldl_cons]
    apply ih
    apply ledgerInvariant_deduct
    exact ledgerInvariant_core db rfl rfl h

theorem ledgerInvariant_materialize (db : DB) (sch : Schedule) (today newOid : Nat)
    (h : ledgerInvariant db) :
    ledgerInvariant (materializeOccurrence db sch today newOid).1 := by
  unfold materializeOccurrence
  by_cases hex : db.occurrences.any (fun oc =>
      oc.classId == sch.classId && oc.scheduleId == some sch.sid &&
        oc.occDate == today && oc.startTime == sch.startTime)
  · simpa [hex] using h
  · simp only [hex, Bool.false_eq_true, if_false]
    by_cases htriple : db.occurrences.any (fun oc =>
        oc.classId == sch.classId && oc.occDate == today &&
          oc.startTime == sch.startTime)
    · simpa [htriple] using h
    · simp only [htriple, Bool.false_eq_true, if_false]
      apply ledgerInvariant_foldStudents
      exact ledgerInvariant_core db rfl rfl h

/-! ## Claim C1 -/

/-- C1 counterexample: the claim says every exposed operation, including
allocate-payment-to-classes and payment creation with overdue recovery,
preserves `classes_remaining = classes_purchased - Σ linked classes_deducted`.
Both break it. Starting from a consistent store holding one payment of 2
purchased and 2 remaining with no deductions, POST /:id/allocate of 1 class
to class 1 drops `classes_remaining` to 1 while creating no deduction, so
`1 ≠ 2 - 0`. And starting from a store with an overdue occurrence and no
payments, POST / creating a payment of 2 classes allocated to that class
inserts an overdue deduction linked to the new payment without decrementing
its counter, so `2 ≠ 2 - 1`. -/
theorem claim1_counterexample :
    ledgerInvariant (⟨[⟨1, 1, 2, 2, 0⟩], [], [], [], [], [], []⟩ : DB) ∧
    ¬ ledgerInvariant
        (allocatePayment (⟨[⟨1, 1, 2, 2, 0⟩], [], [], [], [], [], []⟩ : DB) 1
          [⟨1, 1⟩]) ∧
    ledgerInvariant
      (⟨[], [], [], [⟨1, 7, .present⟩], [⟨7, 1, none, 3, 60, true⟩], [],
        [⟨1, 1, true⟩]⟩ : DB) ∧
    ¬ ledgerInvariant
        (createPayment
          (⟨[], [], [], [⟨1, 7, .present⟩], [⟨7, 1, none, 3, 60, true⟩], [],
            [⟨1, 1, true⟩]⟩ : DB) 1 1 2 0 [⟨1, 2⟩]) := by
  refine ⟨by decide, by decide, by decide, by decide⟩

/-- C1 (amended): for every store satisfying the ledger invariant
(conservation of `classes_remaining` against linked deductions,
non-negativity, and the schema constraints), the invariant is preserved by
deduct, refund, reverse-deduction, exclusion add and remove,
attendance-with-payment reconciliation and occurrence materialization.
The two operations the original claim also listed — allocate-payment-to-classes
and payment creation with overdue recovery — do not preserve it
(see the counterexample). -/
theorem claim1_conservation_preserved (db : DB) (h : ledgerInvariant db) :
    (∀ s c o, ledgerInvariant (deductPaymentBalance db s c o).1) ∧
    (∀ s c o, ledgerInvariant (refundPaymentBalance db s c o)) ∧
    (∀ s o, ledgerInvariant (reversePaymentDeduction db s o)) ∧
    (∀ o s reason, ledgerInvariant (addExclusion db o s reason)) ∧
    (∀ o s, ledgerInvariant (removeExclusion db o s)) ∧
    (∀ s o st b, ledgerInvariant (attendanceWithPayment db s o st b)) ∧
    (∀ sch today newOid, ledgerInvariant (materializeOccurrence db sch today newOid).1) :=
  ⟨fun s c o => ledgerInvariant_deduct db s c o h,
   fun s c o => ledgerInvariant_refund db s c o h,
   fun s o => ledgerInvariant_reverse db s o h,
   fun o s reason => ledgerInvariant_addExclusion db o s reason h,
   fun o s => ledgerInvariant_removeExclusion db o s h,
   fun s o st b => ledgerInvariant_attendanceWithPayment db s o st b h,
   fun sch today newOid => ledgerInvariant_materialize db sch today newOid h⟩

/-- Witness for C1 (amended) at the concrete `sampleDB`. -/
theorem claim1_conservation_preserved_witness :
    ledgerInvariant sampleDB ∧
    ledgerInvariant (deductPaymentBalance sampleDB 1 1 9).1 ∧
    ledgerInvariant (refundPaymentBalance sampleDB 1 1 7) ∧
    ledgerInvariant (reversePaymentDeduction sampleDB 1 7) ∧
    ledgerInvariant (addExclusion sampleDB 7 1 "sick") ∧
    ledgerInvariant (removeExclusion sampleDB 7 1) ∧
    ledgerInvariant (attendanceWithPayment sampleDB 1 7 .absent true) ∧
    ledgerInvariant (materializeOccurrence sampleDB sampleSchedule 4 9).1 :=
  have h : ledgerInvariant sampleDB := by decide
  ⟨h,
   (claim1_conservation_preserved sampleDB h).1 1 1 9,
   (claim1_conservation_preserved sampleDB h).2.1 1 1 7,
   (claim1_conservation_preserved sampleDB h).2.2.1 1 7,
   (claim1_conservation_preserved sampleDB h).2.2.2.1 7 1 "sick",
   (claim1_conservation_preserved sampleDB h).2.2.2.2.1 7 1,
   (claim1_conservation_preserved sampleDB h).2.2.2.2.2.1 1 7 .absent true,
   (claim1_conservation_preserved sampleDB h).2.2.2.2.2.2 sampleSchedule 4 9⟩

/-! ## Claim C2 -/

/-- C2: when a deduct call for (student, occurrence) succeeds, a second deduct
call detects the existing deduction and returns the already-exists outcome
with the store completely unchanged; over the two calls there is exactly one
deduction row for the pair and the chosen payment's `classes_remaining` was
decremented exactly once (the payments table equals a single decrement of the
original), while attendance and occurrences were never touched. -/
theorem claim2_no_double_deduction (db : DB) (s c o p : Nat)
    (h : (deductPaymentBalance db s c o).2 = .deducted p) :
    deductPaymentBalance (deductPaymentBalance db s c o).1 s c o =
      ((deductPaymentBalance db s c o).1, .alreadyExists) ∧
    countDed db s o = 0 ∧
    countDed (deductPaymentBalance db s c o).1 s o = 1 ∧
    (deductPaymentBalance db s c o).1.payments = decRemaining db.payments p 1 ∧
    (deductPaymentBalance db s c o).1.attendance = db.attendance ∧
    (deductPaymentBalance db s c o).1.occurrences = db.occurrences := by
  have hex : db.deductions.any (fun d => d.studentId == s && d.occurrenceId == o) = false := by
    by_contra hc
    rw [Bool.not_eq_false] at hc
    unfold deductPaymentBalance at h
    rw [if_pos hc] at h
    simp at h
  obtain ⟨r, hsel, hp⟩ : ∃ r, selectPayRow db s c = some r ∧ r.pay.pid = p := by
    cases hsel : selectPayRow db s c with
    | none =>
      unfold deductPaymentBalance at h
      rw [if_neg (by simp [hex]), hsel] at h
      simp at h
    | some r =>
      unfold deductPaymentBalance at h
      rw [if_neg (by simp [hex]), hsel] at h
      dsimp only at h
      exact ⟨r, rfl, by injection h⟩
  have hdb1 : (deductPaymentBalance db s c o).1 =
      { db with
          deductions := db.deductions ++ [⟨s, c, o, some r.pay.pid, 1, false⟩],
          payments := decRemaining db.payments r.pay.pid 1 } := by
    unfold deductPaymentBalance
    rw [if_neg (by simp [hex]), hsel]
  have hzero : countDed db s o = 0 := by
    unfold countDed
    rw [List.countP_eq_zero]
    simpa only [List.any_eq_false] using hex
  refine ⟨?_, hzero, ?_, ?_, ?_, ?_⟩
  · rw [hdb1]
    unfold deductPaymentBalance
    rw [if_pos (by simp)]
  · rw [hdb1]
    unfold countDed
    dsimp only
    rw [List.countP_append]
    have h1 : List.countP (fun d => d.studentId == s && d.occurrenceId == o)
        [(⟨s, c, o, some r.pay.pid, 1, false⟩ : Deduction)] = 1 := by simp
    unfold countDed at hzero
    omega
  · rw [hdb1, hp]
  · rw [hdb1]
  · rw [hdb1]

/-- Witness for C2 at `sampleDB`: deducting occurrence 9 for student 1 in
class 1 succeeds against payment 1, and re-deducting is the already-exists
no-op leaving exactly one deduction row. -/
theorem claim2_no_double_deduction_witness :
    (deductPaymentBalance sampleDB 1 1 9).2 = .deducted 1 ∧
    deductPaymentBalance (deductPaymentBalance sampleDB 1 1 9).1 1 1 9 =
      ((deductPaymentBalance sampleDB 1 1 9).1, .alreadyExists) ∧
    countDed (deductPaymentBalance sampleDB 1 1 9).1 1 9 = 1 :=
  have h : (deductPaymentBalance sampleDB 1 1 9).2 = .deducted 1 := by decide
  ⟨h, (claim2_no_double_deduction sampleDB 1 1 9 1 h).1,
    (claim2_no_double_deduction sampleDB 1 1 9 1 h).2.2.1⟩

/-! ## Claim C6 -/

theorem find?_append_left_none (p : α → Bool) (l₁ l₂ : List α)
    (h : ∀ x ∈ l₁, ¬ p x) : (l₁ ++ l₂).find? p = l₂.find? p := by
  induction l₁ with
  | nil => rfl
  | cons x xs ih =>
    rw [List.cons_append,
      List.find?_cons_of_neg _ (by simpa using h x (List.mem_cons_self x xs))]
    exact ih (fun y hy => h y (List.mem_cons_of_mem x hy))

theorem removeFirst_append_left_none (p : α → Bool) (l₁ l₂ : List α)
    (h : ∀ x ∈ l₁, ¬ p x) : removeFirst p (l₁ ++ l₂) = l₁ ++ removeFirst p l₂ := by
  induction l₁ with
  | nil => rfl
  | cons x xs ih =>
    simp only [List.cons_append, removeFirst]
    rw [if_neg (by simpa using h x (List.mem_cons_self x xs))]
    rw [List.append_eq]
    rw [ih (fun y hy => h y (List.mem_cons_of_mem x hy))]

theorem incRemaining_decRemaining (ps : List Payment) (q : Nat) (k : Int) :
    incRemaining (decRemaining ps q k) q k = ps := by
  unfold incRemaining decRemaining
  rw [List.map_map]
  conv_rhs => rw [← List.map_id ps]
  apply List.map_congr_left
  intro p _
  by_cases h : p.pid = q
  · simp only [Function.comp_apply, h, beq_self_eq_true, if_true]
    rw [Int.sub_add_cancel, ← h]
    rfl
  · simp [h, Function.comp]

/-- C6: when a deduct call for (student, class, occurrence) succeeds and so
leaves the pair in the Deducted state, running either refund implementation
immediately afterwards restores the payments table and the deduction table
exactly to their pre-deduct values; and on any store with no deduction row
for the pair, both refund implementations are no-ops. -/
theorem claim6_refund_roundtrip (db : DB) (s c o p : Nat)
    (h : (deductPaymentBalance db s c o).2 = .deducted p) :
    reversePaymentDeduction (deductPaymentBalance db s c o).1 s o = db ∧
    refundPaymentBalance (deductPaymentBalance db s c o).1 s c o = db ∧
    (∀ db' : DB,
      db'.deductions.find? (fun d =>
        d.studentId == s && d.classId == c && d.occurrenceId == o) = none →
      refundPaymentBalance db' s c o = db') ∧
    (∀ db' : DB,
      db'.deductions.find? (fun d => d.studentId == s && d.occurrenceId == o) = none →
      reversePaymentDeduction db' s o = db') := by
  have hex : db.deductions.any (fun d => d.studentId == s && d.occurrenceId == o) = false := by
    by_contra hc
    rw [Bool.not_eq_false] at hc
    unfold deductPaymentBalance at h
    rw [if_pos hc] at h
    simp at h
  obtain ⟨r, hsel⟩ : ∃ r, selectPayRow db s c = some r := by
    cases hsel : selectPayRow db s c with
    | none =>
      unfold deductPaymentBalance at h
      rw [if_neg (by simp [hex]), hsel] at h
      simp at h
    | some r => exact ⟨r, rfl⟩
  have hdb1 : (deductPaymentBalance db s c o).1 =
      { db with
          deductions := db.deductions ++ [⟨s, c, o, some r.pay.pid, 1, false⟩],
          payments := decRemaining db.payments r.pay.pid 1 } := by
    unfold deductPaymentBalance
    rw [if_neg (by simp [hex]), hsel]
  have hnomatch : ∀ e ∈ db.deductions, ¬(e.studentId == s && e.occurrenceId == o) := by
    simpa only [List.any_eq_false] using hex
  refine ⟨?_, ?_, ?_, ?_⟩
  · rw [hdb1]
    unfold reversePaymentDeduction
    rw [show ({ db with
        deductions := db.deductions ++ [⟨s, c, o, some r.pay.pid, 1, false⟩],
        payments := decRemaining db.payments r.pay.pid 1 } : DB).deductions =
      db.deductions ++ [⟨s, c, o, some r.pay.pid, 1, false⟩] from rfl]
    rw [find?_append_left_none _ _ _ hnomatch]
    rw [List.find?_cons_of_pos _ (by simp)]
    dsimp only
    rw [List.filter_append]
    rw [List.filter_eq_self.mpr (by
      intro e he
      have h2 := hnomatch e he
      simp at h2 ⊢
      tauto)]
    rw [show List.filter (fun e => !(e.studentId == s && e.occurrenceId == o))
        [(⟨s, c, o, some r.pay.pid, 1, false⟩ : Deduction)] = [] from by simp]
    rw [List.append_nil, incRemaining_decRemaining]
  · rw [hdb1]
    unfold refundPaymentBalance
    rw [show ({ db with
        deductions := db.deductions ++ [⟨s, c, o, some r.pay.pid, 1, false⟩],
        payments := decRemaining db.payments r.pay.pid 1 } : DB).deductions =
      db.deductions ++ [⟨s, c, o, some r.pay.pid, 1, false⟩] from rfl]
    rw [find?_append_left_none _ _ _ (by
      intro e he
      have h2 := hnomatch e he
      simp at h2 ⊢
      tauto)]
    rw [List.find?_cons_of_pos _ (by simp)]
    dsimp only
    rw [removeFirst_append_left_none _ _ _ (by
      intro e he
      have h2 := hnomatch e he
      simp at h2 ⊢
      tauto)]
    rw [show removeFirst (fun e =>
        e.studentId == s && e.classId == c && e.occurrenceId == o)
        [(⟨s, c, o, some r.pay.pid, 1, false⟩ : Deduction)] = [] from by
      simp [removeFirst]]
    rw [List.append_nil, incRemaining_decRemaining]
  · intro db' hfind
    unfold refundPaymentBalance
    rw [hfind]
  · intro db' hfind
    unfold reversePaymentDeduction
    rw [hfind]

/-- Witness for C6 at `sampleDB`: deduct occurrence 9 then reverse it, and
refund of the deduction-free occurrence 11 is a no-op. -/
theorem claim6_refund_roundtrip_witness :
    (deductPaymentBalance sampleDB 1 1 9).2 = .deducted 1 ∧
    reversePaymentDeduction (deductPaymentBalance sampleDB 1 1 9).1 1 9 = sampleDB ∧
    refundPaymentBalance sampleDB 1 1 11 = sampleDB :=
  have h : (deductPaymentBalance sampleDB 1 1 9).2 = .deducted 1 := by decide
  have h11 : (deductPaymentBalance sampleDB 1 1 11).2 = .deducted 1 := by decide
  ⟨h, (claim6_refund_roundtrip sampleDB 1 1 9 1 h).1,
    (claim6_refund_roundtrip sampleDB 1 1 11 1 h11).2.2.1 sampleDB (by decide)⟩

/-! ## Claim C5 -/

theorem setOccOverdue_spec (db : DB) (o : Nat) (b : Bool) :
    ∀ oc ∈ (setOccOverdue db o b).occurrences, oc.oid = o → oc.isOverdue = b := by
  intro oc hoc hoid
  unfold setOccOverdue at hoc
  simp only [List.mem_map] at hoc
  obtain ⟨oc0, hoc0, heq⟩ := hoc
  by_cases h0 : oc0.oid = o
  · rw [if_pos (by simp [h0])] at heq
    rw [← heq]
  · rw [if_neg (by simp [h0])] at heq
    subst heq
    exact absurd hoid h0

/-- C5 counterexample: the claim says a deduct call finding no eligible
payment sets the occurrence's `is_overdue` flag to true. In the
`deductPaymentBalance` of the occurrence routes (and of the first scheduler),
it does not: on a store with occurrence 5 and no payments at all, the call
returns without touching anything and `is_overdue` is still false. -/
theorem claim5_counterexample :
    (deductPaymentBalance
      (⟨[], [], [], [], [⟨5, 1, none, 3, 60, false⟩], [], []⟩ : DB) 1 1 5).2 =
        .noPayment ∧
    (deductPaymentBalance
      (⟨[], [], [], [], [⟨5, 1, none, 3, 60, false⟩], [], []⟩ : DB) 1 1 5).1 =
      (⟨[], [], [], [], [⟨5, 1, none, 3, 60, false⟩], [], []⟩ : DB) ∧
    ((deductPaymentBalance
      (⟨[], [], [], [], [⟨5, 1, none, 3, 60, false⟩], [], []⟩ : DB) 1 1 5).1.occurrences.find?
        (fun oc => oc.oid == 5)).map (fun oc => oc.isOverdue) = some false := by
  refine ⟨by decide, by decide, by decide⟩

/-- C5 (amended): when no deduction exists yet for the pair and no payment of
the student has both `classes_remaining > 0` and remaining allocation
capacity for the class, the `deductPaymentBalance` of the occurrence routes
and of the first scheduler leaves the entire store unchanged and reports only
that no payment was found, without marking the occurrence overdue; the second
scheduler variant is the one that sets `is_overdue = true` on the occurrence,
reports the overdue outcome, and leaves payments, deductions and attendance
unchanged. -/
theorem claim5_no_payment_behavior (db : DB) (s c o : Nat)
    (hno : db.deductions.any (fun d => d.studentId == s && d.occurrenceId == o) = false)
    (hsel : selectPayRow db s c = none) :
    deductPaymentBalance db s c o = (db, .noPayment) ∧
    deductPaymentBalanceSched db s c o = (setOccOverdue db o true, .noPaymentOverdue) ∧
    (∀ oc ∈ (deductPaymentBalanceSched db s c o).1.occurrences,
      oc.oid = o → oc.isOverdue = true) ∧
    (deductPaymentBalanceSched db s c o).1.payments = db.payments ∧
    (deductPaymentBalanceSched db s c o).1.deductions = db.deductions ∧
    (deductPaymentBalanceSched db s c o).1.attendance = db.attendance := by
  have h1 : deductPaymentBalance db s c o = (db, .noPayment) := by
    unfold deductPaymentBalance
    rw [if_neg (by simp [hno]), hsel]
  have h2 : deductPaymentBalanceSched db s c o =
      (setOccOverdue db o true, .noPaymentOverdue) := by
    unfold deductPaymentBalanceSched
    rw [if_neg (by simp [hno]), hsel]
  refine ⟨h1, h2, ?_, ?_, ?_, ?_⟩
  · rw [h2]
    exact setOccOverdue_spec db o true
  · rw [h2]
    rfl
  · rw [h2]
    rfl
  · rw [h2]
    rfl

/-- Witness for C5 (amended) on a store with an enrolled student, a present
attendance row on occurrence 5 and no payments. -/
theorem claim5_no_payment_behavior_witness :
    deductPaymentBalance
      (⟨[], [], [], [⟨1, 5, .present⟩], [⟨5, 1, none, 3, 60, false⟩], [],
        [⟨1, 1, true⟩]⟩ : DB) 1 1 5 =
      ((⟨[], [], [], [⟨1, 5, .present⟩], [⟨5, 1, none, 3, 60, false⟩], [],
        [⟨1, 1, true⟩]⟩ : DB), .noPayment) ∧
    deductPaymentBalanceSched
      (⟨[], [], [], [⟨1, 5, .present⟩], [⟨5, 1, none, 3, 60, false⟩], [],
        [⟨1, 1, true⟩]⟩ : DB) 1 1 5 =
      (setOccOverdue
        (⟨[], [], [], [⟨1, 5, .present⟩], [⟨5, 1, none, 3, 60, false⟩], [],
          [⟨1, 1, true⟩]⟩ : DB) 5 true, .noPaymentOverdue) :=
  have h := claim5_no_payment_behavior
    (⟨[], [], [], [⟨1, 5, .present⟩], [⟨5, 1, none, 3, 60, false⟩], [],
      [⟨1, 1, true⟩]⟩ : DB) 1 1 5 (by decide) (by decide)
  ⟨h.1, h.2.1⟩

/-! ## Claim C7 -/

/-- C7: the attendance-with-payment route upserts the attendance row and,
when `update_payment_balance` is set, performs a reversal exactly when the
previous status was present and the new one is not, performs a deduct exactly
when the previous status was not present (including no record) and the new
one is present, and in every other case — and always when the flag is
false — changes no payment, allocation or deduction state. -/
theorem claim7_attendance_with_payment (db : DB) (s o : Nat) (st : AttStatus)
    (oc : Occurrence) (hocc : db.occurrences.find? (fun x => x.oid == o) = some oc) :
    (attendanceWithPayment db s o st false = upsertAttendance db s o st ∧
     (attendanceWithPayment db s o st false).payments = db.payments ∧
     (attendanceWithPayment db s o st false).allocations = db.allocations ∧
     (attendanceWithPayment db s o st false).deductions = db.deductions) ∧
    (wasPresent db s o = true → st ≠ .present →
      attendanceWithPayment db s o st true =
        reversePaymentDeduction (upsertAttendance db s o st) s o) ∧
    (wasPresent db s o = false → st = .present →
      attendanceWithPayment db s o st true =
        (deductPaymentBalance (upsertAttendance db s o st) s oc.classId o).1) ∧
    ((wasPresent db s o = true ↔ st = .present) →
      attendanceWithPayment db s o st true = upsertAttendance db s o st ∧
      (attendanceWithPayment db s o st true).payments = db.payments ∧
      (attendanceWithPayment db s o st true).allocations = db.allocations ∧
      (attendanceWithPayment db s o st true).deductions = db.deductions) := by
  obtain ⟨hfp, hfa, hfd, _⟩ := upsertAttendance_frame db s o st
  refine ⟨?_, ?_, ?_, ?_⟩
  · have heq : attendanceWithPayment db s o st false = upsertAttendance db s o st := by
      unfold attendanceWithPayment
      simp
    exact ⟨heq, by rw [heq, hfp], by rw [heq, hfa], by rw [heq, hfd]⟩
  · intro hwas hst
    unfold attendanceWithPayment
    rw [if_pos rfl, if_pos (by simp [hwas, hst])]
  · intro hwas hst
    unfold attendanceWithPayment
    rw [if_pos rfl, if_neg (by simp [hwas]), if_pos (by simp [hwas, hst]), hocc]
  · intro hiff
    have heq : attendanceWithPayment db s o st true = upsertAttendance db s o st := by
      unfold attendanceWithPayment
      rw [if_pos rfl]
      by_cases hw : wasPresent db s o
      · have hst : st = .present := hiff.mp hw
        rw [if_neg (by simp [hst]), if_neg (by simp [hw])]
      · have hst : ¬ st = .present := fun hc =>
          hw (hiff.mpr hc)
        rw [if_neg (by simp [Bool.not_eq_true _ |>.mp hw]),
          if_neg (by simp [hst])]
    exact ⟨heq, by rw [heq, hfp], by rw [heq, hfa], by rw [heq, hfd]⟩

/-- Witness for C7 at `sampleDB`: occurrence 7 exists, student 1 was present;
changing to absent with the flag on is the reverse composition; the flag-off
call and the present-to-present call leave the ledger untouched. -/
theorem claim7_attendance_with_payment_witness :
    (attendanceWithPayment sampleDB 1 7 .absent false =
      upsertAttendance sampleDB 1 7 .absent) ∧
    (attendanceWithPayment sampleDB 1 7 .absent true =
      reversePaymentDeduction (upsertAttendance sampleDB 1 7 .absent) 1 7) ∧
    (attendanceWithPayment sampleDB 1 7 .present true).deductions =
      sampleDB.deductions :=
  have h := claim7_attendance_with_payment sampleDB 1 7 .absent
    ⟨7, 1, none, 3, 60, false⟩ (by decide)
  have h2 := claim7_attendance_with_payment sampleDB 1 7 .present
    ⟨7, 1, none, 3, 60, false⟩ (by decide)
  ⟨h.1.1, h.2.1 (by decide) (by decide),
    (h2.2.2.2 (by decide)).2.2.2⟩

/-! ## Claim C9 -/

theorem bulkFold_frame (o : Nat) (recs : List (Nat × AttStatus)) (db : DB) :
    (recs.foldl (fun acc r => upsertAttendance acc r.1 o r.2) db).payments = db.payments ∧
    (recs.foldl (fun acc r => upsertAttendance acc r.1 o r.2) db).allocations =
      db.allocations ∧
    (recs.foldl (fun acc r => upsertAttendance acc r.1 o r.2) db).deductions =
      db.deductions := by
  induction recs generalizing db with
  | nil => exact ⟨rfl, rfl, rfl⟩
  | cons r rs ih =>
    simp only [List.foldl_cons]
    obtain ⟨hp, ha, hd⟩ := ih (upsertAttendance db r.1 o r.2)
    obtain ⟨hp2, ha2, hd2, _⟩ := upsertAttendance_frame db r.1 o r.2
    exact ⟨hp.trans hp2, ha.trans ha2, hd.trans hd2⟩

/-- C9: the plain attendance endpoints — single-record POST, PUT update, and
bulk POST — only write attendance rows: for every store, every input status
and every record list, the payments, allocations and deductions tables are
unchanged. -/
theorem claim9_plain_attendance_frame (db : DB) (s o : Nat) (st : AttStatus)
    (recs : List (Nat × AttStatus)) :
    ((recordAttendance db s o st).payments = db.payments ∧
     (recordAttendance db s o st).allocations = db.allocations ∧
     (recordAttendance db s o st).deductions = db.deductions) ∧
    ((updateAttendance db o s st).payments = db.payments ∧
     (updateAttendance db o s st).allocations = db.allocations ∧
     (updateAttendance db o s st).deductions = db.deductions) ∧
    ((bulkAttendance db o recs).payments = db.payments ∧
     (bulkAttendance db o recs).allocations = db.allocations ∧
     (bulkAttendance db o recs).deductions = db.deductions) := by
  refine ⟨?_, ⟨rfl, rfl, rfl⟩, ?_⟩
  · unfold recordAttendance
    cases hocc : db.occurrences.find? (fun oc => oc.oid == o) with
    | none => exact ⟨rfl, rfl, rfl⟩
    | some oc =>
      by_cases hen : db.enrollments.any (fun e =>
          e.studentId == s && e.classId == oc.classId && e.isActive)
      · simp only [hen, if_true]
        obtain ⟨hp, ha, hd, _⟩ := upsertAttendance_frame db s o st
        exact ⟨hp, ha, hd⟩
      · simp only [hen, Bool.false_eq_true, if_false]
        exact ⟨trivial, trivial, trivial⟩
  · unfold bulkAttendance
    by_cases hne : recs.isEmpty
    · simp only [hne, if_true]
      exact ⟨trivial, trivial, trivial⟩
    · simp only [hne, Bool.false_eq_true, if_false]
      cases hocc : db.occurrences.find? (fun oc => oc.oid == o) with
      | none => exact ⟨rfl, rfl, rfl⟩
      | some oc => exact bulkFold_frame o recs db

/-! ## Claim C10 -/

/-- C10: deleting an existing payment removes exactly its payment row and (by
cascade) its allocation rows; every deduction row survives — those that drew
from the deleted payment keep all their fields with `payment_id` set to
NULL — and attendance, occurrences and exclusions are untouched; the
surviving payments are exactly the original other rows, so no counter changes
and no refund happens. -/
theorem claim10_delete_payment (db : DB) (pid : Nat)
    (hex : db.payments.any (fun p => p.pid == pid) = true) :
    (∀ p ∈ (deletePayment db pid).payments, p.pid ≠ pid) ∧
    (∀ p ∈ db.payments, p.pid ≠ pid → p ∈ (deletePayment db pid).payments) ∧
    (∀ p ∈ (deletePayment db pid).payments, p ∈ db.payments) ∧
    (∀ a ∈ (deletePayment db pid).allocations, a.paymentId ≠ pid) ∧
    (∀ a ∈ db.allocations, a.paymentId ≠ pid → a ∈ (deletePayment db pid).allocations) ∧
    ((deletePayment db pid).deductions.length = db.deductions.length) ∧
    (∀ d ∈ db.deductions,
      (if d.paymentId = some pid then { d with paymentId := none } else d) ∈
        (deletePayment db pid).deductions) ∧
    (∀ d ∈ (deletePayment db pid).deductions, d.paymentId ≠ some pid) ∧
    ((deletePayment db pid).attendance = db.attendance) ∧
    ((deletePayment db pid).occurrences = db.occurrences) ∧
    ((deletePayment db pid).exclusions = db.exclusions) := by
  unfold deletePayment
  rw [if_pos hex]
  dsimp only
  refine ⟨?_, ?_, ?_, ?_, ?_, ?_, ?_, ?_, rfl, rfl, rfl⟩
  · intro p hp
    rw [List.mem_filter] at hp
    simpa using hp.2
  · intro p hp hne
    rw [List.mem_filter]
    exact ⟨hp, by simpa using hne⟩
  · intro p hp
    exact (List.mem_filter.mp hp).1
  · intro a ha
    rw [List.mem_filter] at ha
    simpa using ha.2
  · intro a ha hne
    rw [List.mem_filter]
    exact ⟨ha, by simpa using hne⟩
  · exact List.length_map _ _
  · intro d hd
    rw [List.mem_map]
    refine ⟨d, hd, ?_⟩
    by_cases h : d.paymentId = some pid
    · rw [if_pos (by simp [h]), if_pos h]
    · rw [if_neg (by simp [h]), if_neg h]
  · intro d hd
    rw [List.mem_map] at hd
    obtain ⟨d0, _, hmap⟩ := hd
    by_cases h : d0.paymentId = some pid
    · rw [if_pos (by simp [h])] at hmap
      rw [← hmap]
      simp
    · rw [if_neg (by simp [h])] at hmap
      rw [← hmap]
      exact h

/-- Witness for C10 at `sampleDB`: deleting payment 1 leaves no payment and
no allocation, keeps the deduction row with `payment_id` NULL, and does not
touch attendance. -/
theorem claim10_delete_payment_witness :
    (∀ p ∈ (deletePayment sampleDB 1).payments, p.pid ≠ 1) ∧
    ((deletePayment sampleDB 1).deductions.length = sampleDB.deductions.length) ∧
    (∀ d ∈ (deletePayment sampleDB 1).deductions, d.paymentId ≠ some 1) ∧
    ((deletePayment sampleDB 1).attendance = sampleDB.attendance) :=
  have h := claim10_delete_payment sampleDB 1 (by decide)
  ⟨h.1, h.2.2.2.2.2.1, h.2.2.2.2.2.2.2.1, h.2.2.2.2.2.2.2.2.1⟩

/-! ## Claim C3 -/

theorem materialize_already (db' : DB) (sch : Schedule) (today newOid : Nat)
    (h : db'.occurrences.any (fun oc =>
      oc.classId == sch.classId && oc.scheduleId == some sch.sid &&
        oc.occDate == today && oc.startTime == sch.startTime) = true) :
    materializeOccurrence db' sch today newOid = (db', .alreadyExists) := by
  unfold materializeOccurrence
  rw [if_pos h]

theorem foldStudents_occurrences (c o : Nat) (studs : List Nat) (db : DB) :
    (studs.foldl (fun acc st =>
      (deductPaymentBalance
        { acc with attendance := acc.attendance ++ [⟨st, o, .present⟩] }
        st c o).1) db).occurrences = db.occurrences := by
  induction studs generalizing db with
  | nil => rfl
  | cons st sts ih =>
    simp only [List.foldl_cons]
    rw [ih]
    exact (deduct_frame _ st c o).2.2.1

theorem countDed_deduct_le_one (db : DB) (s c o s' o' : Nat)
    (h : countDed db s' o' ≤ 1) : countDed (deductPaymentBalance db s c o).1 s' o' ≤ 1 := by
  unfold deductPaymentBalance
  by_cases hex : db.deductions.any (fun d => d.studentId == s && d.occurrenceId == o)
  · simpa [hex] using h
  · simp only [hex, Bool.false_eq_true, if_false]
    cases hsel : selectPayRow db s c with
    | none => simpa using h
    | some r =>
      unfold countDed at h ⊢
      dsimp only
      rw [List.countP_append]
      by_cases hm : s = s' ∧ o = o'
      · have hzero : db.deductions.countP (fun d =>
            d.studentId == s' && d.occurrenceId == o') = 0 := by
          rw [List.countP_eq_zero]
          intro d hd
          have := (List.any_eq_false.mp ((Bool.not_eq_true _).mp hex)) d hd
          simpa [hm.1, hm.2] using this
        have hone : List.countP (fun d => d.studentId == s' && d.occurrenceId == o')
            [(⟨s, c, o, some r.pay.pid, 1, false⟩ : Deduction)] = 1 := by
          simp [List.countP_singleton, hm.1, hm.2]
        omega
      · have hzero : List.countP (fun d => d.studentId == s' && d.occurrenceId == o')
            [(⟨s, c, o, some r.pay.pid, 1, false⟩ : Deduction)] = 0 := by
          simp only [List.countP_singleton, Bool.and_eq_true, beq_iff_eq]
          rw [if_neg (by tauto)]
        omega

theorem foldStudents_countDed_le_one (c o : Nat) (studs : List Nat) (db : DB)
    (h : ∀ st, countDed db st o ≤ 1) :
    ∀ st, countDed
      (studs.foldl (fun acc s' =>
        (deductPaymentBalance
          { acc with attendance := acc.attendance ++ [⟨s', o, .present⟩] }
          s' c o).1) db) st o ≤ 1 := by
  induction studs generalizing db with
  | nil => exact h
  | cons s' sts ih =>
    simp only [List.foldl_cons]
    apply ih
    intro st
    exact countDed_deduct_le_one _ s' c o st o (h st)

theorem foldStudents_countAtt (c o : Nat) (studs : List Nat) (db : DB) (st : Nat) :
    countAtt (studs.foldl (fun acc s' =>
      (deductPaymentBalance
        { acc with attendance := acc.attendance ++ [⟨s', o, .present⟩] }
        s' c o).1) db) st o =
      countAtt db st o + studs.count st := by
  induction studs generalizing db with
  | nil => simp [List.count_nil]
  | cons s' sts ih =>
    simp only [List.foldl_cons]
    rw [ih]
    have hstep : countAtt (deductPaymentBalance
        { db with attendance := db.attendance ++ [⟨s', o, .present⟩] } s' c o).1 st o =
        countAtt db st o + (if s' == st then 1 else 0) := by
      have hfr := (deduct_frame
        { db with attendance := db.attendance ++ [⟨s', o, .present⟩] } s' c o).2.1
      unfold countAtt
      rw [hfr]
      dsimp only
      rw [List.countP_append]
      congr 1
      simp [List.countP_singleton]
    rw [hstep, List.count_cons]
    have : sts.count st + (if s' == st then 1 else 0) =
        (if s' == st then 1 else 0) + sts.count st := by omega
    by_cases hss : s' == st
    · simp only [hss, if_true]
      omega
    · simp only [hss, Bool.false_eq_true, if_false]
      omega

theorem autoCreate_already (db' : DB) (sch : Schedule) (today newOid : Nat)
    (h : db'.occurrences.any (fun oc =>
      oc.classId == sch.classId && oc.occDate == today &&
        oc.startTime == sch.startTime) = true) :
    autoCreateOccurrence db' sch today newOid = (db', .alreadyExists) := by
  unfold autoCreateOccurrence
  rw [if_pos h]

theorem materialize_unique_violation (db' : DB) (sch : Schedule)
    (today newOid : Nat)
    (h4 : db'.occurrences.any (fun oc =>
      oc.classId == sch.classId && oc.scheduleId == some sch.sid &&
        oc.occDate == today && oc.startTime == sch.startTime) = false)
    (h3 : db'.occurrences.any (fun oc =>
      oc.classId == sch.classId && oc.occDate == today &&
        oc.startTime == sch.startTime) = true) :
    materializeOccurrence db' sch today newOid = (db', .uniqueViolation) := by
  unfold materializeOccurrence
  rw [if_neg (by simp [h4]), if_pos h3]

/-- C3 counterexample: the claim says that when the insert hits the
uniqueness constraint on (class, date, start_time) the operation is treated
as the AlreadyExists no-op outcome, not as an error. On a store holding a
manual occurrence (NULL `schedule_id`) for the same triple, the scheduler's
four-part pre-check misses it, the INSERT raises the unique violation, and
the per-schedule catch records it as an error — not the AlreadyExists
outcome — leaving the store unchanged. -/
theorem claim3_counterexample :
    countTriple (⟨[], [], [], [], [⟨5, 1, none, 4, 60, false⟩], [], []⟩ : DB)
      1 4 60 = 1 ∧
    materializeOccurrence
      (⟨[], [], [], [], [⟨5, 1, none, 4, 60, false⟩], [], []⟩ : DB)
      (⟨2, 1, 1, 60, true⟩ : Schedule) 4 9 =
      ((⟨[], [], [], [], [⟨5, 1, none, 4, 60, false⟩], [], []⟩ : DB),
        .uniqueViolation) ∧
    (materializeOccurrence
      (⟨[], [], [], [], [⟨5, 1, none, 4, 60, false⟩], [], []⟩ : DB)
      (⟨2, 1, 1, 60, true⟩ : Schedule) 4 9).2 ≠ .alreadyExists := by
  refine ⟨by decide, by decide, by decide⟩

/-- C3 (amended): when no occurrence exists yet for the (class, date,
start_time) triple and the occurrence id is fresh, running the materializer
twice — two scheduler ticks of the same schedule, or a tick plus an
auto-create call in either order — creates the occurrence once, the second
run finds the existing row and is the AlreadyExists no-op leaving the store
bit-for-bit unchanged, exactly one occurrence row carries the triple, and
every student ends with at most one attendance row and at most one deduction
for the new occurrence. However, the scheduler's pre-check is on the
four-part (class, schedule_id, date, start_time) key, so when a same-triple
occurrence from a different or NULL schedule already exists, the insert hits
the unique constraint and the scheduler treats it as a caught error with the
store unchanged — not as the AlreadyExists outcome; only the auto-create
route, whose pre-check is on the constraint's own triple, skips it as the
AlreadyExists no-op. -/
theorem claim3_materializer_idempotent (db : DB) (sch : Schedule)
    (today newOid newOid' : Nat)
    (hfa : db.attendance.all (fun a => a.occurrenceId != newOid) = true)
    (hfd : db.deductions.all (fun d => d.occurrenceId != newOid) = true)
    (hnodup : ((db.enrollments.filter (fun e =>
      e.classId == sch.classId && e.isActive)).map (fun e => e.studentId)).Nodup)
    (hzero : countTriple db sch.classId today sch.startTime = 0) :
    (materializeOccurrence db sch today newOid).2 = .created newOid ∧
    materializeOccurrence (materializeOccurrence db sch today newOid).1 sch
        today newOid' =
      ((materializeOccurrence db sch today newOid).1, .alreadyExists) ∧
    autoCreateOccurrence (materializeOccurrence db sch today newOid).1 sch
        today newOid' =
      ((materializeOccurrence db sch today newOid).1, .alreadyExists) ∧
    (autoCreateOccurrence db sch today newOid).2 = .created newOid ∧
    materializeOccurrence (autoCreateOccurrence db sch today newOid).1 sch
        today newOid' =
      ((autoCreateOccurrence db sch today newOid).1, .alreadyExists) ∧
    countTriple (materializeOccurrence db sch today newOid).1
      sch.classId today sch.startTime = 1 ∧
    countTriple (autoCreateOccurrence db sch today newOid).1
      sch.classId today sch.startTime = 1 ∧
    (∀ st, countAtt (materializeOccurrence db sch today newOid).1 st newOid ≤ 1) ∧
    (∀ st, countDed (materializeOccurrence db sch today newOid).1 st newOid ≤ 1) ∧
    (∀ st, countAtt (autoCreateOccurrence db sch today newOid).1 st newOid ≤ 1) ∧
    (∀ st, countDed (autoCreateOccurrence db sch today newOid).1 st newOid ≤ 1) ∧
    (∀ db' : DB,
      db'.occurrences.any (fun oc =>
        oc.classId == sch.classId && oc.scheduleId == some sch.sid &&
          oc.occDate == today && oc.startTime == sch.startTime) = false →
      db'.occurrences.any (fun oc =>
        oc.classId == sch.classId && oc.occDate == today &&
          oc.startTime == sch.startTime) = true →
      materializeOccurrence db' sch today newOid' = (db', .uniqueViolation)) := by
  have hall3 : ∀ oc ∈ db.occurrences,
      ¬(oc.classId == sch.classId && oc.occDate == today &&
        oc.startTime == sch.startTime) := List.countP_eq_zero.mp hzero
  have hany3 : db.occurrences.any (fun oc =>
      oc.classId == sch.classId && oc.occDate == today &&
        oc.startTime == sch.startTime) = false := List.any_eq_false.mpr hall3
  have hany4 : db.occurrences.any (fun oc =>
      oc.classId == sch.classId && oc.scheduleId == some sch.sid &&
        oc.occDate == today && oc.startTime == sch.startTime) = false := by
    rw [List.any_eq_false]
    intro oc hoc
    have h3 := hall3 oc hoc
    simp only [Bool.and_eq_true] at h3 ⊢
    tauto
  have hocc1 : (materializeOccurrence db sch today newOid).1.occurrences =
      db.occurrences ++
        [⟨newOid, sch.classId, some sch.sid, today, sch.startTime, false⟩] := by
    unfold materializeOccurrence
    rw [if_neg (by simp [hany4]), if_neg (by simp [hany3])]
    dsimp only
    rw [foldStudents_occurrences]
  have hocc2 : (autoCreateOccurrence db sch today newOid).1.occurrences =
      db.occurrences ++
        [⟨newOid, sch.classId, some sch.sid, today, sch.startTime, false⟩] := by
    unfold autoCreateOccurrence
    rw [if_neg (by simp [hany3])]
    dsimp only
    rw [foldStudents_occurrences]
  have hattz : ∀ st, countAtt { db with occurrences := db.occurrences ++
      [⟨newOid, sch.classId, some sch.sid, today, sch.startTime, false⟩] } st newOid = 0 := by
    intro st
    unfold countAtt
    dsimp only
    rw [List.countP_eq_zero]
    intro a ha
    have := List.all_eq_true.mp hfa a ha
    simp only [bne_iff_ne, ne_eq] at this
    simp [this]
  have hdedz : ∀ st, countDed { db with occurrences := db.occurrences ++
      [⟨newOid, sch.classId, some sch.sid, today, sch.startTime, false⟩] } st newOid = 0 := by
    intro st
    unfold countDed
    dsimp only
    rw [List.countP_eq_zero]
    intro d hd
    have := List.all_eq_true.mp hfd d hd
    simp only [bne_iff_ne, ne_eq] at this
    simp [this]
  refine ⟨?_, ?_, ?_, ?_, ?_, ?_, ?_, ?_, ?_, ?_, ?_, ?_⟩
  · unfold materializeOccurrence
    rw [if_neg (by simp [hany4]), if_neg (by simp [hany3])]
  · exact materialize_already _ sch today newOid' (by rw [hocc1]; simp)
  · exact autoCreate_already _ sch today newOid' (by rw [hocc1]; simp)
  · unfold autoCreateOccurrence
    rw [if_neg (by simp [hany3])]
  · exact materialize_already _ sch today newOid' (by rw [hocc2]; simp)
  · show List.countP (fun oc =>
        oc.classId == sch.classId && oc.occDate == today &&
          oc.startTime == sch.startTime)
      (materializeOccurrence db sch today newOid).1.occurrences = 1
    rw [hocc1, List.countP_append]
    have hz : List.countP (fun oc =>
        oc.classId == sch.classId && oc.occDate == today &&
          oc.startTime == sch.startTime) db.occurrences = 0 := hzero
    have hone : List.countP (fun oc =>
        oc.classId == sch.classId && oc.occDate == today &&
          oc.startTime == sch.startTime)
        [(⟨newOid, sch.classId, some sch.sid, today, sch.startTime, false⟩ :
          Occurrence)] = 1 := by
      simp
    omega
  · show List.countP (fun oc =>
        oc.classId == sch.classId && oc.occDate == today &&
          oc.startTime == sch.startTime)
      (autoCreateOccurrence db sch today newOid).1.occurrences = 1
    rw [hocc2, List.countP_append]
    have hz : List.countP (fun oc =>
        oc.classId == sch.classId && oc.occDate == today &&
          oc.startTime == sch.startTime) db.occurrences = 0 := hzero
    have hone : List.countP (fun oc =>
        oc.classId == sch.classId && oc.occDate == today &&
          oc.startTime == sch.startTime)
        [(⟨newOid, sch.classId, some sch.sid, today, sch.startTime, false⟩ :
          Occurrence)] = 1 := by
      simp
    omega
  · intro st
    unfold materializeOccurrence
    rw [if_neg (by simp [hany4]), if_neg (by simp [hany3])]
    dsimp only
    rw [foldStudents_countAtt, hattz st]
    have := List.nodup_iff_count_le_one.mp hnodup st
    omega
  · intro st
    unfold materializeOccurrence
    rw [if_neg (by simp [hany4]), if_neg (by simp [hany3])]
    dsimp only
    apply foldStudents_countDed_le_one
    intro st'
    rw [hdedz st']
    omega
  · intro st
    unfold autoCreateOccurrence
    rw [if_neg (by simp [hany3])]
    dsimp only
    rw [foldStudents_countAtt, hattz st]
    have := List.nodup_iff_count_le_one.mp hnodup st
    omega
  · intro st
    unfold autoCreateOccurrence
    rw [if_neg (by simp [hany3])]
    dsimp only
    apply foldStudents_countDed_le_one
    intro st'
    rw [hdedz st']
    omega
  · intro db' h4 h3
    exact materialize_unique_violation db' sch today newOid' h4 h3

/-- Witness for C3 (amended) at `sampleDB` with `sampleSchedule`:
materializing day 4 creates occurrence 9 once under every pairing of a
scheduler tick with an auto-create call, and the error clause fires on a
concrete store holding a manual same-triple occurrence. -/
theorem claim3_materializer_idempotent_witness :
    (materializeOccurrence sampleDB sampleSchedule 4 9).2 = .created 9 ∧
    materializeOccurrence (materializeOccurrence sampleDB sampleSchedule 4 9).1
        sampleSchedule 4 10 =
      ((materializeOccurrence sampleDB sampleSchedule 4 9).1, .alreadyExists) ∧
    autoCreateOccurrence (materializeOccurrence sampleDB sampleSchedule 4 9).1
        sampleSchedule 4 10 =
      ((materializeOccurrence sampleDB sampleSchedule 4 9).1, .alreadyExists) ∧
    materializeOccurrence (autoCreateOccurrence sampleDB sampleSchedule 4 9).1
        sampleSchedule 4 10 =
      ((autoCreateOccurrence sampleDB sampleSchedule 4 9).1, .alreadyExists) ∧
    countTriple (materializeOccurrence sampleDB sampleSchedule 4 9).1 1 4 60 = 1 ∧
    materializeOccurrence
      (⟨[], [], [], [], [⟨5, 1, none, 4, 60, false⟩], [], []⟩ : DB)
      sampleSchedule 4 10 =
      ((⟨[], [], [], [], [⟨5, 1, none, 4, 60, false⟩], [], []⟩ : DB),
        .uniqueViolation) :=
  have h := claim3_materializer_idempotent sampleDB sampleSchedule 4 9 10
    (by decide) (by decide) (by decide) (by decide)
  ⟨h.1, h.2.1, h.2.2.1, h.2.2.2.2.1, h.2.2.2.2.2.1,
    h.2.2.2.2.2.2.2.2.2.2.2
      (⟨[], [], [], [], [⟨5, 1, none, 4, 60, false⟩], [], []⟩ : DB)
      (by decide) (by decide)⟩

/-! ## Claim C4 -/

theorem processOverdue_cons (pid s c : Nat) (oc : Occurrence)
    (rest : List Occurrence) (db : DB) :
    processOverdue pid s c db (oc :: rest) =
      processOverdue pid s c
        (if db.deductions.any (fun d => d.studentId == s && d.occurrenceId == oc.oid)
         then db
         else setOccOverdue
           { db with deductions := db.deductions ++ [⟨s, c, oc.oid, some pid, 1, true⟩] }
           oc.oid false) rest := rfl

theorem processOverdue_mem (pid s c : Nat) (occs : List Occurrence) (db : DB) :
    ∀ d ∈ (processOverdue pid s c db occs).deductions,
      d ∈ db.deductions ∨
        (d.studentId = s ∧ d.classId = c ∧ d.paymentId = some pid ∧
          d.classesDeducted = 1 ∧ d.isOverdueDeduction = true ∧
          ∃ oc ∈ occs, d.occurrenceId = oc.oid) := by
  induction occs generalizing db with
  | nil => exact fun d hd => Or.inl hd
  | cons oc rest ih =>
    intro d hd
    rw [processOverdue_cons] at hd
    by_cases hg : db.deductions.any (fun e => e.studentId == s && e.occurrenceId == oc.oid)
    · rw [if_pos hg] at hd
      cases ih db d hd with
      | inl h => exact Or.inl h
      | inr h =>
        obtain ⟨h1, h2, h3, h4, h5, oc', hoc', h6⟩ := h
        exact Or.inr ⟨h1, h2, h3, h4, h5, oc', List.mem_cons_of_mem _ hoc', h6⟩
    · rw [if_neg hg] at hd
      cases ih _ d hd with
      | inl h =>
        rw [show (setOccOverdue
            { db with deductions := db.deductions ++ [⟨s, c, oc.oid, some pid, 1, true⟩] }
            oc.oid false).deductions =
          db.deductions ++ [⟨s, c, oc.oid, some pid, 1, true⟩] from rfl] at h
        rw [List.mem_append] at h
        cases h with
        | inl h => exact Or.inl h
        | inr h =>
          rw [List.mem_singleton] at h
          subst h
          exact Or.inr ⟨rfl, rfl, rfl, rfl, rfl, oc, List.mem_cons_self _ _, rfl⟩
      | inr h =>
        obtain ⟨h1, h2, h3, h4, h5, oc', hoc', h6⟩ := h
        exact Or.inr ⟨h1, h2, h3, h4, h5, oc', List.mem_cons_of_mem _ hoc', h6⟩

theorem processOverdue_length (pid s c : Nat) (occs : List Occurrence) (db : DB) :
    (processOverdue pid s c db occs).deductions.length ≤
      db.deductions.length + occs.length := by
  induction occs generalizing db with
  | nil => simp [processOverdue]
  | cons oc rest ih =>
    rw [processOverdue_cons]
    by_cases hg : db.deductions.any (fun e => e.studentId == s && e.occurrenceId == oc.oid)
    · rw [if_pos hg]
      have := ih db
      simp only [List.length_cons]
      omega
    · rw [if_neg hg]
      have := ih (setOccOverdue
        { db with deductions := db.deductions ++ [⟨s, c, oc.oid, some pid, 1, true⟩] }
        oc.oid false)
      rw [show (setOccOverdue
          { db with deductions := db.deductions ++ [⟨s, c, oc.oid, some pid, 1, true⟩] }
          oc.oid false).deductions =
        db.deductions ++ [⟨s, c, oc.oid, some pid, 1, true⟩] from rfl] at this
      simp only [List.length_append, List.length_cons, List.length_nil] at this ⊢
      omega

theorem setOccOverdue_pres_false (db : DB) (o x : Nat)
    (h : ∀ oc ∈ db.occurrences, oc.oid = x → oc.isOverdue = false) :
    ∀ oc ∈ (setOccOverdue db o false).occurrences, oc.oid = x → oc.isOverdue = false := by
  intro oc hoc hx
  unfold setOccOverdue at hoc
  simp only [List.mem_map] at hoc
  obtain ⟨oc0, h0, heq⟩ := hoc
  by_cases ho : oc0.oid = o
  · rw [if_pos (by simp [ho])] at heq
    rw [← heq]
  · rw [if_neg (by simp [ho])] at heq
    subst heq
    exact h oc0 h0 hx

theorem processOverdue_pres_false (pid s c : Nat) (occs : List Occurrence) (db : DB)
    (x : Nat) (h : ∀ oc ∈ db.occurrences, oc.oid = x → oc.isOverdue = false) :
    ∀ oc ∈ (processOverdue pid s c db occs).occurrences,
      oc.oid = x → oc.isOverdue = false := by
  induction occs generalizing db with
  | nil => exact h
  | cons oc0 rest ih =>
    rw [processOverdue_cons]
    by_cases hg : db.deductions.any (fun e => e.studentId == s && e.occurrenceId == oc0.oid)
    · rw [if_pos hg]
      exact ih db h
    · rw [if_neg hg]
      exact ih _ (setOccOverdue_pres_false _ oc0.oid x h)

theorem processOverdue_clears (pid s c : Nat) (occs : List Occurrence) (db : DB) :
    ∀ d ∈ (processOverdue pid s c db occs).deductions, d ∉ db.deductions →
      ∀ oc ∈ (processOverdue pid s c db occs).occurrences,
        oc.oid = d.occurrenceId → oc.isOverdue = false := by
  induction occs generalizing db with
  | nil => exact fun d hd hnd => absurd hd hnd
  | cons oc0 rest ih =>
    intro d hd hnd
    rw [processOverdue_cons] at hd ⊢
    by_cases hg : db.deductions.any (fun e => e.studentId == s && e.occurrenceId == oc0.oid)
    · rw [if_pos hg] at hd ⊢
      exact ih db d hd hnd
    · rw [if_neg hg] at hd ⊢
      by_cases hd' : d ∈ (setOccOverdue
          { db with deductions := db.deductions ++ [⟨s, c, oc0.oid, some pid, 1, true⟩] }
          oc0.oid false).deductions
      · have hrow : d = ⟨s, c, oc0.oid, some pid, 1, true⟩ := by
          rw [show (setOccOverdue
              { db with deductions := db.deductions ++ [⟨s, c, oc0.oid, some pid, 1, true⟩] }
              oc0.oid false).deductions =
            db.deductions ++ [⟨s, c, oc0.oid, some pid, 1, true⟩] from rfl] at hd'
          rw [List.mem_append] at hd'
          cases hd' with
          | inl h => exact absurd h hnd
          | inr h => exact List.mem_singleton.mp h
        apply processOverdue_pres_false
        intro oc hoc hx
        rw [hrow] at hx
        exact setOccOverdue_spec _ oc0.oid false oc hoc hx
      · exact ih _ d hd hd'

theorem overdueOccs_take_le_drop (db : DB) (s c : Nat) (n : Nat) :
    ∀ x ∈ (overdueOccs db s c).take n, ∀ y ∈ (overdueOccs db s c).drop n,
      x.occDate ≤ y.occDate := by
  have hs : List.Pairwise occDateLE (overdueOccs db s c) :=
    List.sorted_insertionSort occDateLE _
  rw [← List.take_append_drop n (overdueOccs db s c)] at hs
  exact (List.pairwise_append.mp hs).2.2

/-- C4: creating a payment with an allocation of N credits to a class scans
the student's overdue present-attendance occurrences for that class oldest
first: every deduction row the operation adds is an overdue deduction of 1
(`is_overdue_deduction = true`) linked to the new payment, drawn from the N
oldest overdue occurrences; at most N rows are added; every occurrence that
received a new deduction has its `is_overdue` flag cleared; and every scanned
occurrence is no newer than every overdue occurrence left unscanned. -/
theorem claim4_overdue_fifo (db : DB) (pid s c : Nat) (n purch : Int) (pdate : Nat)
    (henr : db.enrollments.any (fun e =>
      e.studentId == s && e.classId == c && e.isActive) = true) :
    (∀ d ∈ (createPayment db pid s purch pdate [⟨c, n⟩]).deductions,
      d ∈ db.deductions ∨
        (d.studentId = s ∧ d.classId = c ∧ d.paymentId = some pid ∧
          d.classesDeducted = 1 ∧ d.isOverdueDeduction = true ∧
          ∃ oc ∈ (overdueOccs db s c).take n.toNat, d.occurrenceId = oc.oid)) ∧
    (createPayment db pid s purch pdate [⟨c, n⟩]).deductions.length ≤
      db.deductions.length + n.toNat ∧
    (∀ d ∈ (createPayment db pid s purch pdate [⟨c, n⟩]).deductions,
      d ∉ db.deductions →
      ∀ oc ∈ (createPayment db pid s purch pdate [⟨c, n⟩]).occurrences,
        oc.oid = d.occurrenceId → oc.isOverdue = false) ∧
    (∀ x ∈ (overdueOccs db s c).take n.toNat,
      ∀ y ∈ (overdueOccs db s c).drop n.toNat, x.occDate ≤ y.occDate) := by
  have hred : createPayment db pid s purch pdate [⟨c, n⟩] =
      processOverdue pid s c
        { db with
            payments := db.payments ++ [⟨pid, s, purch, purch, pdate⟩],
            allocations := db.allocations ++ [⟨pid, c, n⟩] }
        ((overdueOccs db s c).take n.toNat) := by
    unfold createPayment
    rw [if_pos (by simp [henr])]
    rfl
  rw [hred]
  refine ⟨?_, ?_, ?_, overdueOccs_take_le_drop db s c n.toNat⟩
  · intro d hd
    exact processOverdue_mem pid s c ((overdueOccs db s c).take n.toNat)
      { db with
          payments := db.payments ++ [⟨pid, s, purch, purch, pdate⟩],
          allocations := db.allocations ++ [⟨pid, c, n⟩] } d hd
  · have h1 := processOverdue_length pid s c ((overdueOccs db s c).take n.toNat)
      { db with
          payments := db.payments ++ [⟨pid, s, purch, purch, pdate⟩],
          allocations := db.allocations ++ [⟨pid, c, n⟩] }
    have h2 : ((overdueOccs db s c).take n.toNat).length ≤ n.toNat :=
      List.length_take_le _ _
    have h3 : ({ db with
        payments := db.payments ++ [⟨pid, s, purch, purch, pdate⟩],
        allocations := db.allocations ++ [⟨pid, c, n⟩] } : DB).deductions.length =
        db.deductions.length := rfl
    omega
  · intro d hd hnd
    exact processOverdue_clears pid s c ((overdueOccs db s c).take n.toNat)
      { db with
          payments := db.payments ++ [⟨pid, s, purch, purch, pdate⟩],
          allocations := db.allocations ++ [⟨pid, c, n⟩] } d hd hnd

/-- Witness for C4: a student with two overdue occurrences (dates 2 and 3)
and a fresh payment allocating 1 class; only the older occurrence (date 2)
is scanned, and it precedes the unscanned one. -/
theorem claim4_overdue_fifo_witness :
    ((createPayment
      (⟨[], [], [],
        [⟨1, 5, .present⟩, ⟨1, 6, .present⟩],
        [⟨5, 1, none, 3, 60, true⟩, ⟨6, 1, none, 2, 60, true⟩], [],
        [⟨1, 1, true⟩]⟩ : DB) 1 1 2 0 [⟨1, 1⟩]).deductions.length ≤ 0 + 1) ∧
    (∀ x ∈ (overdueOccs
      (⟨[], [], [],
        [⟨1, 5, .present⟩, ⟨1, 6, .present⟩],
        [⟨5, 1, none, 3, 60, true⟩, ⟨6, 1, none, 2, 60, true⟩], [],
        [⟨1, 1, true⟩]⟩ : DB) 1 1).take 1,
      ∀ y ∈ (overdueOccs
      (⟨[], [], [],
        [⟨1, 5, .present⟩, ⟨1, 6, .present⟩],
        [⟨5, 1, none, 3, 60, true⟩, ⟨6, 1, none, 2, 60, true⟩], [],
        [⟨1, 1, true⟩]⟩ : DB) 1 1).drop 1, x.occDate ≤ y.occDate) :=
  have h := claim4_overdue_fifo
    (⟨[], [], [],
      [⟨1, 5, .present⟩, ⟨1, 6, .present⟩],
      [⟨5, 1, none, 3, 60, true⟩, ⟨6, 1, none, 2, 60, true⟩], [],
      [⟨1, 1, true⟩]⟩ : DB) 1 1 1 1 2 0 (by decide)
  ⟨h.2.1, h.2.2.2⟩

/-! ## Claim C8 -/

theorem countP_filter_not {α : Type} (l : List α) (p : α → Bool) :
    (l.filter (fun x => !p x)).countP p = 0 := by
  rw [List.countP_eq_zero]
  intro a ha
  have := List.of_mem_filter ha
  simp only [Bool.not_eq_true'] at this
  simp [this]

theorem countP_eq_one_unique (l : List Deduction) (p : Deduction → Bool)
    (h : l.countP p = 1) : ∀ x ∈ l, p x → ∀ y ∈ l, p y → x = y := by
  induction l with
  | nil => simp
  | cons z zs ih =>
    intro x hx hpx y hy hpy
    rw [List.countP_cons] at h
    by_cases hz : p z
    · rw [if_pos hz] at h
      have hz0 : zs.countP p = 0 := by omega
      have hno : ∀ w ∈ zs, ¬ p w := List.countP_eq_zero.mp hz0
      have hx' : x = z := by
        cases List.mem_cons.mp hx with
        | inl h => exact h
        | inr h => exact absurd hpx (hno x h)
      have hy' : y = z := by
        cases List.mem_cons.mp hy with
        | inl h => exact h
        | inr h => exact absurd hpy (hno y h)
      rw [hx', hy']
    · rw [if_neg hz] at h
      have h1 : zs.countP p = 1 := by omega
      have hx' : x ∈ zs := by
        cases List.mem_cons.mp hx with
        | inl h => rw [h] at hpx; exact absurd hpx hz
        | inr h => exact h
      have hy' : y ∈ zs := by
        cases List.mem_cons.mp hy with
        | inl h => rw [h] at hpy; exact absurd hpy hz
        | inr h => exact h
      exact ih h1 x hx' hpx y hy' hpy

theorem incRemaining_noop (ps : List Payment) (q : Nat) (k : Int)
    (h : ps.countP (fun p => p.pid == q) = 0) : incRemaining ps q k = ps := by
  unfold incRemaining
  conv_rhs => rw [← List.map_id ps]
  apply List.map_congr_left
  intro p hp
  have := List.countP_eq_zero.mp h p hp
  rw [if_neg this]
  rfl

theorem decRemaining_noop (ps : List Payment) (q : Nat) (k : Int)
    (h : ps.countP (fun p => p.pid == q) = 0) : decRemaining ps q k = ps := by
  unfold decRemaining
  conv_rhs => rw [← List.map_id ps]
  apply List.map_congr_left
  intro p hp
  have := List.countP_eq_zero.mp h p hp
  rw [if_neg this]
  rfl

theorem sumRemaining_inc_one (ps : List Payment) (q : Nat) (k : Int)
    (h : ps.countP (fun p => p.pid == q) = 1) :
    sumRemaining (incRemaining ps q k) = sumRemaining ps + k := by
  induction ps with
  | nil => simp at h
  | cons x xs ih =>
    rw [List.countP_cons] at h
    by_cases hx : x.pid = q
    · rw [if_pos (by simp [hx])] at h
      have h0 : xs.countP (fun p => p.pid == q) = 0 := by omega
      unfold incRemaining sumRemaining
      simp only [List.map_cons, List.sum_cons]
      rw [if_pos (by simp [hx])]
      have hnoop : incRemaining xs q k = xs := incRemaining_noop xs q k h0
      unfold incRemaining at hnoop
      rw [hnoop]
      dsimp only
      ring
    · rw [if_neg (by simp [hx])] at h
      have h1 : xs.countP (fun p => p.pid == q) = 1 := by omega
      unfold incRemaining sumRemaining at ih ⊢
      simp only [List.map_cons, List.sum_cons]
      rw [if_neg (by simp [hx])]
      rw [ih h1]
      ring

theorem sumRemaining_dec_one (ps : List Payment) (q : Nat) (k : Int)
    (h : ps.countP (fun p => p.pid == q) = 1) :
    sumRemaining (decRemaining ps q k) = sumRemaining ps - k := by
  induction ps with
  | nil => simp at h
  | cons x xs ih =>
    rw [List.countP_cons] at h
    by_cases hx : x.pid = q
    · rw [if_pos (by simp [hx])] at h
      have h0 : xs.countP (fun p => p.pid == q) = 0 := by omega
      unfold decRemaining sumRemaining
      simp only [List.map_cons, List.sum_cons]
      rw [if_pos (by simp [hx])]
      have hnoop : decRemaining xs q k = xs := decRemaining_noop xs q k h0
      unfold decRemaining at hnoop
      rw [hnoop]
      dsimp only
      ring
    · rw [if_neg (by simp [hx])] at h
      have h1 : xs.countP (fun p => p.pid == q) = 1 := by omega
      unfold decRemaining sumRemaining at ih ⊢
      simp only [List.map_cons, List.sum_cons]
      rw [if_neg (by simp [hx])]
      rw [ih h1]
      ring

theorem countP_pid_eq_one (ps : List Payment) (q : Nat)
    (hnd : (ps.map (fun p => p.pid)).Nodup) (p0 : Payment) (hp : p0 ∈ ps)
    (hq : p0.pid = q) : ps.countP (fun p => p.pid == q) = 1 := by
  have hqmem : q ∈ ps.map (fun p => p.pid) := by
    rw [List.mem_map]
    exact ⟨p0, hp, hq⟩
  have := List.count_eq_one_of_mem hnd hqmem
  rw [List.count_eq_countP] at this
  rw [List.countP_map] at this
  convert this using 2

theorem any_filter_not {α : Type} (l : List α) (p : α → Bool) :
    (l.filter (fun x => !p x)).any p = false := by
  rw [List.any_eq_false]
  intro a ha
  have := List.of_mem_filter ha
  simp only [Bool.not_eq_true'] at this
  simp [this]

theorem usedSum_removeFirst (p u : Deduction → Bool) (l : List Deduction)
    (d : Deduction) (hfind : l.find? p = some d) :
    (((removeFirst p l).filter u).map (fun e => e.classesDeducted)).sum =
      ((l.filter u).map (fun e => e.classesDeducted)).sum -
        (if u d then d.classesDeducted else 0) := by
  induction l with
  | nil => simp at hfind
  | cons x xs ih =>
    by_cases hx : p x
    · rw [List.find?_cons_of_pos _ hx] at hfind
      injection hfind with hfind
      subst hfind
      simp only [removeFirst, hx, if_true]
      rw [List.filter_cons]
      by_cases hu : u x
      · rw [if_pos hu, if_pos hu]
        simp only [List.map_cons, List.sum_cons]
        ring
      · rw [if_neg hu, if_neg hu]
        ring_nf
    · rw [List.find?_cons_of_neg _ (by simpa using hx)] at hfind
      simp only [removeFirst, hx, Bool.false_eq_true, if_false]
      rw [List.filter_cons, List.filter_cons]
      by_cases hu : u x
      · rw [if_pos hu, if_pos hu]
        simp only [List.map_cons, List.sum_cons]
        rw [ih hfind]
        ring
      · rw [if_neg hu, if_neg hu]
        exact ih hfind

theorem classesUsedFrom_filter_pair (db : DB) (s c pid o : Nat) (d : Deduction)
    (hfind : db.deductions.find? (fun e =>
      e.studentId == s && e.occurrenceId == o) = some d)
    (hcnt : db.deductions.countP (fun e =>
      e.studentId == s && e.occurrenceId == o) ≤ 1) :
    (((db.deductions.filter (fun e =>
        !(e.studentId == s && e.occurrenceId == o))).filter
        (fun e => e.studentId == s && e.classId == c && e.paymentId == some pid)).map
        (fun e => e.classesDeducted)).sum =
      classesUsedFrom db s c pid -
        (if d.studentId == s && d.classId == c && d.paymentId == some pid
         then d.classesDeducted else 0) := by
  rw [filter_not_eq_removeFirst _ _ hcnt]
  exact usedSum_removeFirst _ _ _ _ hfind

theorem addExclusion_spec (db : DB) (o s pid : Nat) (reason : String) (oc : Occurrence)
    (d : Deduction)
    (hocc : db.occurrences.find? (fun x => x.oid == o) = some oc)
    (hfind : db.deductions.find? (fun e =>
      e.studentId == s && e.occurrenceId == o) = some d)
    (hd_pay : d.paymentId = some pid) :
    ∃ ex : List Exclusion,
      ex.any (fun e => e.occurrenceId == o && e.studentId == s) = true ∧
      addExclusion db o s reason =
        { db with
            exclusions := ex,
            attendance := db.attendance.filter (fun a =>
              !(a.studentId == s && a.occurrenceId == o)),
            payments := incRemaining db.payments pid d.classesDeducted,
            deductions := db.deductions.filter (fun e =>
              !(e.studentId == s && e.occurrenceId == o)) } := by
  unfold addExclusion
  rw [hocc]
  by_cases hex : db.exclusions.any (fun e => e.occurrenceId == o && e.studentId == s)
  · refine ⟨db.exclusions.map (fun (e : Exclusion) =>
      if e.occurrenceId == o && e.studentId == s then { e with reason := reason }
      else e), ?_, ?_⟩
    · obtain ⟨e, he, hpe⟩ := List.any_eq_true.mp hex
      rw [List.any_eq_true]
      refine ⟨if e.occurrenceId == o && e.studentId == s then { e with reason := reason }
        else e, List.mem_map_of_mem _ he, ?_⟩
      rw [if_pos hpe]
      simpa using hpe
    · dsimp only
      rw [if_pos hex]
      unfold reversePaymentDeduction
      dsimp only
      rw [hfind]
      dsimp only
      rw [hd_pay]
  · refine ⟨db.exclusions ++ [⟨o, s, reason⟩], ?_, ?_⟩
    · rw [List.any_eq_true]
      exact ⟨⟨o, s, reason⟩, List.mem_append_right _ (List.mem_singleton.mpr rfl), by simp⟩
    · dsimp only
      rw [if_neg hex]
      unfold reversePaymentDeduction
      dsimp only
      rw [hfind]
      dsimp only
      rw [hd_pay]

theorem removeExclusion_rededuct (db0 : DB) (o s c : Nat) (oc : Occurrence)
    (p0 : Payment) (a : Allocation)
    (hocc : db0.occurrences.find? (fun x => x.oid == o) = some oc)
    (hc : oc.classId = c)
    (hexany : db0.exclusions.any (fun e =>
      e.occurrenceId == o && e.studentId == s) = true)
    (hattnone : db0.attendance.any (fun a2 =>
      a2.studentId == s && a2.occurrenceId == o) = false)
    (hdednone : db0.deductions.any (fun e =>
      e.studentId == s && e.occurrenceId == o) = false)
    (hp_mem : p0 ∈ db0.payments) (hp_s : p0.studentId = s)
    (hp_pos : 0 < p0.classesRemaining)
    (ha_mem : a ∈ db0.allocations) (ha_pid : a.paymentId = p0.pid) (ha_c : a.classId = c)
    (ha_cap : classesUsedFrom db0 s c p0.pid < a.classesAllocated)
    (hnd : (db0.payments.map (fun p => p.pid)).Nodup) :
    (⟨s, o, .present⟩ : AttendanceRow) ∈ (removeExclusion db0 o s).attendance ∧
    countDed (removeExclusion db0 o s) s o = 1 ∧
    sumRemaining (removeExclusion db0 o s).payments = sumRemaining db0.payments - 1 := by
  have hcand : (⟨p0, a.classesAllocated,
      a.classesAllocated - classesUsedFrom
        { db0 with
            exclusions := db0.exclusions.filter (fun e =>
              !(e.occurrenceId == o && e.studentId == s)),
            attendance := db0.attendance ++ [⟨s, o, .present⟩] } s c p0.pid⟩ : PayRow) ∈
      payRowCandidates
        { db0 with
            exclusions := db0.exclusions.filter (fun e =>
              !(e.occurrenceId == o && e.studentId == s)),
            attendance := db0.attendance ++ [⟨s, o, .present⟩] } s c := by
    unfold payRowCandidates
    rw [List.mem_flatMap]
    refine ⟨p0, ?_, ?_⟩
    · rw [List.mem_filter]
      refine ⟨hp_mem, ?_⟩
      simp only [Bool.and_eq_true, beq_iff_eq, decide_eq_true_eq]
      exact ⟨hp_s, hp_pos⟩
    · rw [List.mem_map]
      refine ⟨a, ?_, rfl⟩
      rw [List.mem_filter]
      refine ⟨ha_mem, ?_⟩
      have husame : classesUsedFrom
          { db0 with
              exclusions := db0.exclusions.filter (fun e =>
                !(e.occurrenceId == o && e.studentId == s)),
              attendance := db0.attendance ++ [⟨s, o, .present⟩] } s c p0.pid =
          classesUsedFrom db0 s c p0.pid := rfl
      simp only [Bool.and_eq_true, beq_iff_eq, decide_eq_true_eq, husame]
      exact ⟨⟨ha_pid, ha_c⟩, by omega⟩
  obtain ⟨r, hr⟩ : ∃ r, selectPayRow
      { db0 with
          exclusions := db0.exclusions.filter (fun e =>
            !(e.occurrenceId == o && e.studentId == s)),
          attendance := db0.attendance ++ [⟨s, o, .present⟩] } s c = some r :=
    Option.isSome_iff_exists.mp
      (pickLatest_isSome _ (List.ne_nil_of_mem hcand))
  have hrpay := selectPayRow_spec _ s c r hr
  have hstep : removeExclusion db0 o s =
      { db0 with
          exclusions := db0.exclusions.filter (fun e =>
            !(e.occurrenceId == o && e.studentId == s)),
          attendance := db0.attendance ++ [⟨s, o, .present⟩],
          deductions := db0.deductions ++ [⟨s, c, o, some r.pay.pid, 1, false⟩],
          payments := decRemaining db0.payments r.pay.pid 1 } := by
    unfold removeExclusion
    rw [if_pos hexany]
    dsimp only
    rw [if_neg (by simp [hattnone])]
    rw [hocc]
    dsimp only
    rw [hc]
    unfold deductPaymentBalance
    rw [if_neg (by simp [hdednone]), hr]
  rw [hstep]
  refine ⟨?_, ?_, ?_⟩
  · exact List.mem_append_right _ (List.mem_singleton.mpr rfl)
  · unfold countDed
    dsimp only
    rw [List.countP_append]
    have h0 : db0.deductions.countP (fun e =>
        e.studentId == s && e.occurrenceId == o) = 0 := by
      rw [List.countP_eq_zero]
      simpa only [List.any_eq_false] using hdednone
    simp only [List.countP_singleton, beq_self_eq_true, Bool.and_self, if_true]
    omega
  · dsimp only
    have hcnt : db0.payments.countP (fun p => p.pid == r.pay.pid) = 1 :=
      countP_pid_eq_one db0.payments r.pay.pid hnd r.pay hrpay.1 rfl
    exact sumRemaining_dec_one db0.payments r.pay.pid 1 hcnt

/-- C8: for a student with a present attendance row and a deduction of one
class funded by payment `pid` for an occurrence, adding an exclusion leaves no
attendance row and no deduction row for the pair and restores the funding
payment's `classes_remaining` by exactly 1 (the payments table becomes a
single increment of the original); removing the exclusion re-inserts a
present attendance row, re-creates exactly one deduction for the pair, and
re-deducts one credit, returning the total `classes_remaining` across all
payments to its original value. -/
theorem claim8_exclusion_roundtrip (db : DB) (o s c pid : Nat) (oc : Occurrence)
    (d : Deduction) (p0 : Payment) (a : Allocation) (reason : String)
    (hocc : db.occurrences.find? (fun x => x.oid == o) = some oc)
    (hc : oc.classId = c)
    (hd_mem : d ∈ db.deductions) (hd_s : d.studentId = s) (hd_o : d.occurrenceId = o)
    (hd_c : d.classId = c) (hd_pay : d.paymentId = some pid)
    (hd_cd : d.classesDeducted = 1)
    (huniq : countDed db s o = 1)
    (hp_mem : p0 ∈ db.payments) (hp_pid : p0.pid = pid) (hp_s : p0.studentId = s)
    (hp_nn : 0 ≤ p0.classesRemaining)
    (ha_mem : a ∈ db.allocations) (ha_pid : a.paymentId = pid) (ha_c : a.classId = c)
    (ha_cap : classesUsedFrom db s c pid ≤ a.classesAllocated)
    (hnd : (db.payments.map (fun p => p.pid)).Nodup) :
    countAtt (addExclusion db o s reason) s o = 0 ∧
    countDed (addExclusion db o s reason) s o = 0 ∧
    (addExclusion db o s reason).payments = incRemaining db.payments pid 1 ∧
    (addExclusion db o s reason).exclusions.any
      (fun e => e.occurrenceId == o && e.studentId == s) = true ∧
    (⟨s, o, .present⟩ : AttendanceRow) ∈
      (removeExclusion (addExclusion db o s reason) o s).attendance ∧
    countDed (removeExclusion (addExclusion db o s reason) o s) s o = 1 ∧
    sumRemaining (removeExclusion (addExclusion db o s reason) o s).payments =
      sumRemaining db.payments := by
  have hpair_d : (d.studentId == s && d.occurrenceId == o) = true := by
    simp [hd_s, hd_o]
  obtain ⟨d', hfind⟩ := Option.isSome_iff_exists.mp
    (show (db.deductions.find? (fun e =>
        e.studentId == s && e.occurrenceId == o)).isSome from
      List.find?_isSome.mpr ⟨d, hd_mem, hpair_d⟩)
  have hd'p := List.find?_some hfind
  have hd'mem := List.mem_of_find?_eq_some hfind
  have hdd : d' = d := countP_eq_one_unique db.deductions _ huniq d'
    hd'mem hd'p d hd_mem hpair_d
  subst hdd
  obtain ⟨ex, hexany, hAeq⟩ := addExclusion_spec db o s pid reason oc d' hocc hfind hd_pay
  rw [hd_cd] at hAeq
  have hcnt_le : db.deductions.countP (fun e =>
      e.studentId == s && e.occurrenceId == o) ≤ 1 := by
    unfold countDed at huniq
    omega
  have husedR : (((db.deductions.filter (fun e =>
      !(e.studentId == s && e.occurrenceId == o))).filter
      (fun e => e.studentId == s && e.classId == c && e.paymentId == some pid)).map
      (fun e => e.classesDeducted)).sum = classesUsedFrom db s c pid - 1 := by
    have h := classesUsedFrom_filter_pair db s c pid o d' hfind hcnt_le
    rw [if_pos (by simp [hd_s, hd_c, hd_pay]), hd_cd] at h
    exact h
  have hcntp0 : db.payments.countP (fun p => p.pid == pid) = 1 :=
    countP_pid_eq_one db.payments pid hnd p0 hp_mem hp_pid
  have hB := removeExclusion_rededuct
    { db with
        exclusions := ex,
        attendance := db.attendance.filter (fun a2 =>
          !(a2.studentId == s && a2.occurrenceId == o)),
        payments := incRemaining db.payments pid 1,
        deductions := db.deductions.filter (fun e =>
          !(e.studentId == s && e.occurrenceId == o)) }
    o s c oc { p0 with classesRemaining := p0.classesRemaining + 1 } a
    hocc hc hexany
    (any_filter_not _ _)
    (any_filter_not _ _)
    (by
      show { p0 with classesRemaining := p0.classesRemaining + 1 } ∈
        incRemaining db.payments pid 1
      unfold incRemaining
      rw [List.mem_map]
      exact ⟨p0, hp_mem, by rw [if_pos (by simp [hp_pid])]⟩)
    hp_s
    (by show 0 < p0.classesRemaining + 1; omega)
    ha_mem
    (show a.paymentId = p0.pid from ha_pid.trans hp_pid.symm)
    ha_c
    (by
      show (((db.deductions.filter (fun e =>
          !(e.studentId == s && e.occurrenceId == o))).filter
          (fun e => e.studentId == s && e.classId == c &&
            e.paymentId == some p0.pid)).map
          (fun e => e.classesDeducted)).sum < a.classesAllocated
      rw [hp_pid, husedR]
      omega)
    (by
      show ((incRemaining db.payments pid 1).map (fun p => p.pid)).Nodup
      rw [incRemaining_map_pid]
      exact hnd)
  have hsumR : sumRemaining (incRemaining db.payments pid 1) =
      sumRemaining db.payments + 1 :=
    sumRemaining_inc_one db.payments pid 1 hcntp0
  refine ⟨?_, ?_, ?_, ?_, ?_, ?_, ?_⟩
  · rw [hAeq]
    exact countP_filter_not _ _
  · rw [hAeq]
    exact countP_filter_not _ _
  · rw [hAeq]
  · rw [hAeq]
    exact hexany
  · rw [hAeq]
    exact hB.1
  · rw [hAeq]
    exact hB.2.1
  · rw [hAeq]
    have h3 := hB.2.2
    rw [show sumRemaining ({ db with
        exclusions := ex,
        attendance := db.attendance.filter (fun a2 =>
          !(a2.studentId == s && a2.occurrenceId == o)),
        payments := incRemaining db.payments pid 1,
        deductions := db.deductions.filter (fun e =>
          !(e.studentId == s && e.occurrenceId == o)) } : DB).payments =
      sumRemaining db.payments + 1 from hsumR] at h3
    omega

/-- Witness for C8 at `sampleDB`: student 1 is present at occurrence 7 with a
deduction funded by payment 1; excluding restores the payment by 1 and
removes both rows; un-excluding re-inserts attendance and re-deducts. -/
theorem claim8_exclusion_roundtrip_witness :
    countAtt (addExclusion sampleDB 7 1 "trip") 1 7 = 0 ∧
    countDed (addExclusion sampleDB 7 1 "trip") 1 7 = 0 ∧
    (addExclusion sampleDB 7 1 "trip").payments =
      incRemaining sampleDB.payments 1 1 ∧
    (⟨1, 7, .present⟩ : AttendanceRow) ∈
      (removeExclusion (addExclusion sampleDB 7 1 "trip") 7 1).attendance ∧
    countDed (removeExclusion (addExclusion sampleDB 7 1 "trip") 7 1) 1 7 = 1 ∧
    sumRemaining (removeExclusion (addExclusion sampleDB 7 1 "trip") 7 1).payments =
      sumRemaining sampleDB.payments :=
  have h := claim8_exclusion_roundtrip sampleDB 7 1 1 1
    ⟨7, 1, none, 3, 60, false⟩ ⟨1, 1, 7, some 1, 1, false⟩
    ⟨1, 1, 5, 4, 10⟩ ⟨1, 1, 3⟩ "trip"
    (by decide) (by decide) (by decide) (by decide) (by decide) (by decide)
    (by decide) (by decide) (by decide) (by decide) (by decide) (by decide)
    (by decide) (by decide) (by decide) (by decide) (by decide) (by decide)
  ⟨h.1, h.2.1, h.2.2.1, h.2.2.2.2.1, h.2.2.2.2.2.1, h.2.2.2.2.2.2⟩
